import Mathlib

/-!
Verification of the devicegen repository: a shallow embedding of
`devicegen/gds_parser.py` (the mask record compiler) and
`devicegen/device_gen.py` (the identity tracker / layer builder), together
with theorems settling the frozen claims about them.

Conventions of the embedding:
* Python lists are Lean lists; Python dicts are association lists that
  preserve insertion order and update keys in place.
* Python exceptions are modelled with `Except Err`; where mutations
  performed before a raise are observable, functions return the partially
  mutated state next to the `Except` value.
* Python `list.index`, negative indexing and slicing are modelled by
  `pyIndex`, `pyGetElem?` and `pySlice` with Python's exact semantics.
* Machine floats appear only in the numeric content of the mask records;
  they are modelled exactly by unnormalized decimal fractions (`Dec`, the
  value `mant / 10 ^ shift`).  All concrete inputs used below are exactly
  representable in binary floating point, so the modelled comparisons
  agree with the Python ones.  Text lines are modelled as `List Char`.
-/

/-- An exact decimal fraction `mant / 10 ^ shift`, the model of the float
values parsed from the mask records. -/
structure Dec where
  mant : Int
  shift : Nat
deriving DecidableEq, Repr

/-- Value equality of two decimal fractions (cross multiplication). -/
def Dec.eqv (a b : Dec) : Prop :=
  a.mant * (10 : Int) ^ b.shift = b.mant * (10 : Int) ^ a.shift

instance (a b : Dec) : Decidable (Dec.eqv a b) := by
  unfold Dec.eqv
  infer_instance

/-- Multiplication of a decimal fraction by `1e6`. -/
def Dec.mul1e6 (a : Dec) : Dec :=
  ⟨a.mant * 1000000, a.shift⟩

/-- Python `list.index`: position of the first occurrence, `none` models
the `ValueError` raised when the element is absent. -/
def pyIndex {α : Type} [DecidableEq α] : List α → α → Option Nat
  | [], _ => none
  | a :: as, x => if a = x then some 0 else (pyIndex as x).map (· + 1)

/-- Python indexing `l[i]` for `i : Int`: negative indices count from the
end; `none` models `IndexError`. -/
def pyGetElem? {α : Type} (l : List α) (i : Int) : Option α :=
  let j : Int := if i < 0 then i + l.length else i
  if j < 0 then none else l.get? j.toNat

/-- Normalize a Python slice bound against a list of length `n`. -/
def pyNorm (n : Nat) (i : Int) : Nat :=
  if i < 0 then (i + n).toNat else min i.toNat n

/-- Python slicing `l[a:b]` (step 1). -/
def pySlice {α : Type} (l : List α) (a b : Int) : List α :=
  (l.take (pyNorm l.length b)).drop (pyNorm l.length a)

/-- Python dict assignment `d[k] = v`: overwrite in place if the key is
present, else append (insertion order is preserved). -/
def dictSet {α : Type} (d : List (String × α)) (k : String) (v : α) :
    List (String × α) :=
  if d.any (fun p => p.1 = k) then
    d.map (fun p => if p.1 = k then (k, v) else p)
  else d ++ [(k, v)]

/-- Python `d.pop(k, None)`: drop the key if present. -/
def dictPop {α : Type} (d : List (String × α)) (k : String) :
    List (String × α) :=
  d.filter (fun p => p.1 ≠ k)

/-- Python `d[k]` lookup with a default (used only where the source
guarantees the key is present). -/
def dictGetD {α : Type} (d : List (String × α)) (k : String) (v₀ : α) : α :=
  match d.find? (fun p => p.1 = k) with
  | some p => p.2
  | none => v₀

/-- Errors of the Python source: `ValueError`, `IndexError`, and the
`NameError`/`UnboundLocalError` raised when a local is referenced before
assignment. -/
inductive Err where
  | valueError (msg : String)
  | indexError
  | nameError
deriving DecidableEq, Repr

deriving instance DecidableEq for Except

/-! ## The mask record compiler (`devicegen/gds_parser.py`) -/

/-- One construction statement written to the `.geo` script.  `point`
records the raw coordinate substrings of the source line; their
float-scaling/rounding/stringification (`round(float(x)*units_m*1e6, 6)`
together with the mesh density `h`) is numeric formatting that no claim
depends on and is not modelled.  `booleanFragments` carries the surface
identifiers of the `BooleanFragments{ Surface{...}; Delete; }{}` statement
(the `Delete` flag is part of the literal text). -/
inductive PStmt where
  | header
  | blank
  | point (id : Nat) (x y : List Char)
  | line (id : Nat) (a b : Nat)
  | curveLoop (id : Nat) (lines : List Nat)
  | planeSurface (id : Nat) (loop : Nat)
  | booleanFragments (surfs : List Nat)
deriving DecidableEq, Repr

/-- State of `Parser` (`gds_parser.py`): the four entity counters, the
per-layer curve-loop registry and the two unit scale factors. -/
structure PSt where
  pt_counter : Nat
  line_counter : Nat
  cl_counter : Nat
  surf_counter : Nat
  layers : List (Char × List Nat)
  units_mum : Dec
  units_m : Dec
deriving DecidableEq, Repr

/-- Initial parser state (`Parser.__init__`): all counters 1, empty layer
registry; the units are read later by `_create_header` (0 stands for the
unset attributes). -/
def PSt.init : PSt :=
  { pt_counter := 1, line_counter := 1, cl_counter := 1, surf_counter := 1
    layers := [], units_mum := ⟨0, 0⟩, units_m := ⟨0, 0⟩ }

/-- Python `remove_prefix(text, prefix)` from `gds_parser.py`:
`text[text.startswith(prefix) and len(prefix):]`. -/
def removePfx (text pfx : List Char) : List Char :=
  if pfx.isPrefixOf text then text.drop pfx.length else text

/-- Append `v` to `d[k]`, creating the key if absent (the source only ever
appends to keys previously inserted by the `LAYER` handler). -/
def layersAppend (d : List (Char × List Nat)) (k : Char) (v : Nat) :
    List (Char × List Nat) :=
  if d.any (fun p => p.1 = k) then
    d.map (fun p => if p.1 = k then (p.1, p.2 ++ [v]) else p)
  else d ++ [(k, [v])]

/-- Python `float()` on a plain decimal literal (optional sign, digits,
optional fractional part; surrounding whitespace stripped), as an exact
decimal fraction.  Exponent forms do not occur in the inputs considered
and yield `none`. -/
def pyFloat (s : List Char) : Option Dec :=
  let cs := (s.dropWhile Char.isWhitespace).reverse.dropWhile Char.isWhitespace |>.reverse
  let signAndRest : Int × List Char :=
    match cs with
    | '-' :: r => (-1, r)
    | '+' :: r => (1, r)
    | r => (1, r)
  let sign := signAndRest.1
  let body := signAndRest.2
  let ip := body.takeWhile (fun c => c ≠ '.')
  let rest := body.dropWhile (fun c => c ≠ '.')
  let digitsVal : List Char → Option Nat := fun ds =>
    if ds.all Char.isDigit then
      some (ds.foldl (fun a c => a * 10 + (c.toNat - 48)) 0)
    else none
  match rest with
  | [] =>
    if ip ≠ [] then (digitsVal ip).map (fun n => ⟨sign * n, 0⟩) else none
  | _ :: fp =>
    if ip = [] ∧ fp = [] then none
    else
      match digitsVal ip, digitsVal fp with
      | some a, some b =>
        some ⟨sign * (a * (10 : Int) ^ fp.length + b), fp.length⟩
      | _, _ => none

/-- Method `Parser.format_point`: split a coordinate line at the first
`:` (Python `str.find` returns `-1` when absent), take the `x` part before
it and the `y` part between it and the trailing newline, and emit one
`Point` statement numbered by the current point counter. -/
def format_point (st : PSt) (point : List Char) : PStmt :=
  let ix : Int :=
    match pyIndex point ':' with
    | some n => (n : Int)
    | none => -1
  let x := pySlice point 0 ix
  let y := pySlice point (ix + 1) (-1)
  .point st.pt_counter x y

/-- Method `Parser._create_elements`: emit the `N-1` consecutive `Line`
statements (`for n in range(checkpoint, self.pt_counter - 1)`), the closing
line from the last point back to the first, the `Curve Loop` over exactly
those lines, record the curve-loop id under the enclosing layer, and emit
the `Plane Surface`; a blank line is written after the surface. -/
def create_elements (st : PSt) (checkpoint : Nat) (layer : Char) :
    PSt × List PStmt :=
  let line_checkpoint := st.line_counter
  let k := st.pt_counter - 1 - checkpoint
  let conn := (List.range k).map
    (fun i => PStmt.line (line_checkpoint + i) (checkpoint + i) (checkpoint + i + 1))
  let last_pt := st.pt_counter - 1
  let first_pt := checkpoint
  let loop_close := PStmt.line (line_checkpoint + k) last_pt first_pt
  let lc2 := line_checkpoint + k + 1
  let line_numbers := List.range' line_checkpoint (lc2 - line_checkpoint)
  let curve_loop := PStmt.curveLoop st.cl_counter line_numbers
  let layers1 := layersAppend st.layers layer st.cl_counter
  let surface := PStmt.planeSurface st.surf_counter st.cl_counter
  ({ st with
      line_counter := lc2
      cl_counter := st.cl_counter + 1
      surf_counter := st.surf_counter + 1
      layers := layers1 },
   conn ++ [loop_close, curve_loop, surface, .blank])

/-- Lookup in the layer registry (`self.layers[key]`; the keys used are
always present). -/
def layersGet (d : List (Char × List Nat)) (k : Char) : List Nat :=
  match d.find? (fun p => p.1 = k) with
  | some p => p.2
  | none => []

/-- Method `Parser._create_surfaces`: sort the layer identifiers and, for
each pair adjacent in ascending order (`for i in range(len(l) - 1)`), emit
one Boolean-fragment statement over the union of both layers' stored
surface identifiers.  `parse` never invokes this helper. -/
def create_surfaces (st : PSt) : List PStmt :=
  let l := (st.layers.map Prod.fst).insertionSort (fun a b => a ≤ b)
  (l.zip l.tail).map
    (fun p => PStmt.booleanFragments
      (layersGet st.layers p.1 ++ layersGet st.layers p.2))

/-- Method `Parser._parse_points`, as one linear scan over the remaining
file lines.  The `mode` argument is `none` in the outer loop and
`some (l, checkpoint)` inside an element, where `l` is the first
coordinate line (the `XY` line with its prefix removed) and `checkpoint` is
the point counter at the start of the element — this mirrors the two
nested `for line in f` loops sharing one file iterator.  `layer` is the
last layer character seen (`none` models the Python local being unbound,
so using it raises). -/
def parse_points (st : PSt) (layer : Option Char)
    (mode : Option (List Char × Nat)) :
    List (List Char) → Except Err (PSt × List PStmt)
  | [] => .ok (st, [])
  | line :: rest =>
    match mode with
    | some lcp =>
      if ("ENDEL".data).isPrefixOf line then
        match layer with
        | none => .error .nameError
        | some ly =>
          let r := create_elements st lcp.2 ly
          (parse_points r.1 layer none rest).map
            (fun so => (so.1, PStmt.blank :: r.2 ++ so.2))
      else
        if line ≠ lcp.1 then
          let p := format_point st line
          (parse_points { st with pt_counter := st.pt_counter + 1 } layer mode rest).map
            (fun so => (so.1, p :: so.2))
        else
          parse_points st layer mode rest
    | none =>
      let step1 : Except Err (PSt × Option Char) :=
        if ("LAYER".data).isPrefixOf line then
          match pyGetElem? line (-3) with
          | none => .error .indexError
          | some c =>
            let layers1 :=
              if st.layers.any (fun p => p.1 = c) then st.layers
              else st.layers ++ [(c, [])]
            .ok ({ st with layers := layers1 }, some c)
        else .ok (st, layer)
      match step1 with
      | .error e => .error e
      | .ok s1 =>
        if ("XY".data).isPrefixOf line then
          let l := removePfx line ("XY ".data)
          let cp := s1.1.pt_counter
          let p := format_point s1.1 l
          (parse_points { s1.1 with pt_counter := cp + 1 } s1.2 (some (l, cp)) rest).map
            (fun so => (so.1, p :: so.2))
        else
          parse_points s1.1 s1.2 none rest

/-- Method `Parser._create_header`: write the `SetFactory` line and a blank
line, scan for the `UNITS` record and split off its two scale factors.
The source compares them (`if self.units_mum != (self.units_m * 1e6)`) but
only constructs `ValueError('Units do not match')` without raising it, so
a mismatch has no effect; this is preserved faithfully.  If the file has
no `UNITS` line, the local `scaling` is referenced before assignment. -/
def create_header (st : PSt) :
    List (List Char) → Except Err (PSt × List (List Char))
  | [] => .error .nameError
  | line :: rest =>
    if ("UNITS".data).isPrefixOf line then
      let scaling := ((removePfx line ("UNITS ".data)).splitOnP
        Char.isWhitespace).filter (fun w => w ≠ [])
      match scaling.get? 0, scaling.get? 1 with
      | some s0, some s1 =>
        match pyFloat s0, pyFloat s1 with
        | some q0, some q1 =>
          .ok ({ st with units_mum := q0, units_m := q1 }, rest)
        | _, _ => .error (.valueError "could not convert string to float")
      | _, _ => .error .indexError
    else create_header st rest

/-- Method `Parser.parse`: run `_create_header` then `_parse_points` over
the input lines; the construction script is the concatenation of their
emitted statements.  `_create_surfaces` is never called. -/
def parse (st : PSt) (lines : List (List Char)) :
    Except Err (PSt × List PStmt) :=
  match create_header st lines with
  | .error e => .error e
  | .ok hr =>
    (parse_points hr.1 none none hr.2).map
      (fun so => (so.1, [PStmt.header, PStmt.blank] ++ so.2))

/-! ## The identity tracker / layer builder (`devicegen/device_gen.py`)

The gmsh geometry engine is an out-of-scope collaborator; its state is
modelled by `Engine` (the 2D entity list and the physical-group/name
registries used by the tracker) and its structural answers (extrusion
batches, boundaries, Boolean-fragment results) are parameters of the
functions that consume them, reflecting the interface contract in the
specification. -/

/-- A gmsh entity `(dim, tag)`. -/
abbrev Ent := Nat × Nat

/-- Modelled from the spec: the entities the engine creates for one input
surface of an extrusion — its new top surface, exactly one new volume, and
the lateral (side) surfaces. -/
structure ExtrGroup where
  top : Nat
  vol : Nat
  sides : List Nat
deriving DecidableEq, Repr

/-- Modelled from the spec: the ordered batch returned by
`gmsh.model.occ.extrude`, grouped per input surface in input order, each
group laid out as top surface, then volume, then side surfaces (the layout
the source's positional inference depends on). -/
def batchOf (gs : List ExtrGroup) : List Ent :=
  gs.flatMap (fun g =>
    (2, g.top) :: (3, g.vol) :: g.sides.map (fun t => (2, t)))

/-- Modelled from the spec: the slice of the engine's global state read
and mutated by the tracker — the current 2D entities, the physical groups
`(dim, physical tag, entity tags)` in creation order, the name registry
keyed by `(dim, physical tag)`, and fresh-tag counters. -/
structure Engine where
  ents2 : List Ent
  groups : List (Nat × Nat × List Nat)
  names : List (Nat × Nat × String)
  nextPtag : Nat
  nextEnt : Nat
deriving DecidableEq, Repr

/-- Engine primitive `addPhysicalGroup`: create a group with a fresh
physical tag, returning the tag. -/
def Engine.addPhysicalGroup (eng : Engine) (dim : Nat) (tags : List Nat) :
    Nat × Engine :=
  (eng.nextPtag,
   { eng with
      groups := eng.groups ++ [(dim, eng.nextPtag, tags)]
      nextPtag := eng.nextPtag + 1 })

/-- Engine primitive `setPhysicalName`: bind a name to `(dim, ptag)`,
overwriting any previous binding of that pair. -/
def Engine.setPhysicalName (eng : Engine) (dim ptag : Nat) (name : String) :
    Engine :=
  if eng.names.any (fun n => n.1 = dim ∧ n.2.1 = ptag) then
    { eng with
       names := eng.names.map
         (fun n => if n.1 = dim ∧ n.2.1 = ptag then (dim, ptag, name) else n) }
  else { eng with names := eng.names ++ [(dim, ptag, name)] }

/-- Engine primitive `getPhysicalName` (empty string when unnamed). -/
def Engine.getPhysicalName (eng : Engine) (dim ptag : Nat) : String :=
  match eng.names.find? (fun n => n.1 = dim ∧ n.2.1 = ptag) with
  | some n => n.2.2
  | none => ""

/-- Engine primitive `removePhysicalGroups`; the empty argument removes
every physical group. -/
def Engine.removePhysicalGroups (eng : Engine) (dimTags : List (Nat × Nat)) :
    Engine :=
  if dimTags = [] then { eng with groups := [] }
  else
    { eng with
       groups := eng.groups.filter (fun g => (g.1, g.2.1) ∉ dimTags) }

/-- Engine primitive `removePhysicalName`: drop every binding of the given
name string. -/
def Engine.removePhysicalName (eng : Engine) (name : String) : Engine :=
  { eng with names := eng.names.filter (fun n => n.2.2 ≠ name) }

/-- Engine primitive `getPhysicalGroupsForEntity`: the physical tags of the
groups of dimension `dim` containing the entity, in creation (ascending
tag) order. -/
def Engine.getPhysicalGroupsForEntity (eng : Engine) (dim tag : Nat) :
    List Nat :=
  (eng.groups.filter (fun g => g.1 = dim ∧ tag ∈ g.2.2)).map (fun g => g.2.1)

/-- Engine primitive `getEntitiesForPhysicalGroup`. -/
def Engine.getEntitiesForPhysicalGroup (eng : Engine) (dim ptag : Nat) :
    List Nat :=
  match eng.groups.find? (fun g => g.1 = dim ∧ g.2.1 = ptag) with
  | some g => g.2.2
  | none => []

/-- Engine primitive `getPhysicalGroups dim`. -/
def Engine.getPhysicalGroups (eng : Engine) (dim : Nat) :
    List (Nat × Nat) :=
  (eng.groups.filter (fun g => g.1 = dim)).map (fun g => (g.1, g.2.1))

/-- Material metadata stored per named volume
(`material_dict[name] = {material, pdoping, ndoping}`). -/
structure MatProps where
  material : Option String
  pdoping : Int
  ndoping : Int
deriving DecidableEq, Repr

/-- Boundary-condition metadata stored per named surface
(`bnd_dict[name] = {type, params}`).  The opaque boundary parameters are
modelled as integers. -/
structure BndCond where
  btype : String
  params : List Int
deriving DecidableEq, Repr

/-- The `DeviceGenerator` attributes the claims are about. -/
structure DG where
  first_layer : Bool
  bottom_surface : List Ent
  top_surface : List Ent
  layer_counter : Nat
  s_counter : Nat
  dot_counter : Nat
  field_counter : Nat
  vol_entities : List (String × List (List Ent))
  vol_entities_top : List (String × List (List Ent))
  dot_tag : List (List (List Nat))
  dot_volume : List (List (List Nat))
  material_dict : List (String × MatProps)
  bnd_dict : List (String × BndCond)
deriving DecidableEq, Repr

/-- A Python argument that may be a single string or a list of strings
(the implicit dynamic typing of the name parameters). -/
inductive PyStr where
  | s (v : String)
  | l (vs : List String)
deriving DecidableEq, Repr

/-- Method `store_mat_properties`. -/
def store_mat_properties (label : String) (material : Option String)
    (pdoping ndoping : Int) (dg : DG) : DG :=
  { dg with
     material_dict := dictSet dg.material_dict label
       ⟨material, pdoping, ndoping⟩ }

/-- Method `store_bnd_conditions`: a no-op when `bnd_type` is `None`. -/
def store_bnd_conditions (label : String) (bnd_type : Option String)
    (bnd_params : List Int) (dg : DG) : DG :=
  match bnd_type with
  | none => dg
  | some t => { dg with bnd_dict := dictSet dg.bnd_dict label ⟨t, bnd_params⟩ }

/-- Method `label_entity`: for each tag, look up the first physical group
owning it; destroy that group and its name; re-register the remaining
members under the old name only when the old name differs from the new one
and members remain (otherwise only a collision warning is printed);
finally create a fresh group of exactly `ent_tags` under `new_name`. -/
def label_entity_step (dim : Nat) (new_name : String) (eng : Engine)
    (tag : Nat) : Engine :=
  match eng.getPhysicalGroupsForEntity dim tag with
  | [] => eng
  | phys_tag :: _ =>
    let ent_list := eng.getEntitiesForPhysicalGroup dim phys_tag
    let name := eng.getPhysicalName dim phys_tag
    let eng := eng.removePhysicalGroups [(dim, phys_tag)]
    let eng := eng.removePhysicalName name
    let ent_list := ent_list.erase tag
    if name ≠ new_name ∧ ent_list ≠ [] then
      let pe := eng.addPhysicalGroup dim ent_list
      pe.2.setPhysicalName dim pe.1 name
    else eng

/-- Method `label_entity`, assembled from the per-tag loop body above and
the final creation of the group of exactly `ent_tags` under `new_name`. -/
def label_entity (dim : Nat) (ent_tags : List Nat) (new_name : String)
    (eng : Engine) : Nat × Engine :=
  let eng1 := ent_tags.foldl (label_entity_step dim new_name) eng
  let pe := eng1.addPhysicalGroup dim ent_tags
  (pe.1, pe.2.setPhysicalName dim pe.1 new_name)

/-- Method `label_volume`: `label_entity` on dimension 3 plus material
metadata. -/
def label_volume (ent_tags : List Nat) (new_name : String)
    (material : Option String) (pdoping ndoping : Int)
    (eng : Engine) (dg : DG) : Nat × Engine × DG :=
  let pe := label_entity 3 ent_tags new_name eng
  (pe.1, pe.2, store_mat_properties new_name material pdoping ndoping dg)

/-- Method `label_surface`: `label_entity` on dimension 2 plus
boundary-condition metadata. -/
def label_surface (ent_tags : List Nat) (new_name : String)
    (bnd_type : Option String) (bnd_params : List Int)
    (eng : Engine) (dg : DG) : Nat × Engine × DG :=
  let pe := label_entity 2 ent_tags new_name eng
  (pe.1, pe.2, store_bnd_conditions new_name bnd_type bnd_params dg)

/-- Method `label_bottom`: raises `ValueError` while `first_layer` holds,
otherwise names the current bottom surfaces and stores the boundary
condition. -/
def label_bottom (label : String) (bnd_type : Option String)
    (bnd_params : List Int) (eng : Engine) (dg : DG) :
    Except Err Unit × Engine × DG :=
  if dg.first_layer then
    (.error (.valueError "This is the first layer, not the bottom!"), eng, dg)
  else
    let tags := dg.bottom_surface.map Prod.snd
    let pe := eng.addPhysicalGroup 2 tags
    let eng := pe.2.setPhysicalName 2 pe.1 label
    (.ok (), eng, store_bnd_conditions label bnd_type bnd_params dg)

/-- The per-region body of `_update_vol_entities` (the loop over
`vol_entities.keys()`), split out so the loop can be reasoned about
entry by entry. -/
def update_vol_entry (surf_to_extr extr_surf : List Ent)
    (kv : String × List (List Ent)) :
    Except Err (String × List (List Ent)) :=
  let vols := extr_surf.filter (fun e => e.1 = 3)
  do
    let surfs ←
      match kv.2.getLast? with
      | some s => Except.ok s
      | none => Except.error Err.indexError
    let vol_list ← surfs.mapM (fun s => do
      let id ←
        match pyIndex surf_to_extr s with
        | some i => Except.ok i
        | none => Except.error (Err.valueError "not in list")
      match vols.get? id with
      | some v => Except.ok v
      | none => Except.error Err.indexError)
    let frames1 := kv.2 ++ [vol_list]
    let new_surfs ← vol_list.mapM (fun v => do
      let id ←
        match pyIndex extr_surf v with
        | some i => Except.ok i
        | none => Except.error (Err.valueError "not in list")
      match pyGetElem? extr_surf ((id : Int) - 1) with
      | some e => Except.ok e
      | none => Except.error Err.indexError)
    return (kv.1, frames1 ++ [new_surfs])

/-- Method `_update_vol_entities`: for every named region, index-align its
most recent surface frame against the extruded surface list to collect the
produced volumes, append them as a volume frame, then locate each volume
in the extrusion batch and append the entity immediately preceding it (the
new top surface) as the next surface frame.  Python list indexing errors
are surfaced in the `Except` value. -/
def update_vol_entities (surf_to_extr extr_surf : List Ent)
    (ve : List (String × List (List Ent))) :
    Except Err (List (String × List (List Ent))) :=
  let vols := extr_surf.filter (fun e => e.1 = 3)
  ve.mapM (fun kv => do
    let surfs ←
      match kv.2.getLast? with
      | some s => Except.ok s
      | none => Except.error Err.indexError
    let vol_list ← surfs.mapM (fun s => do
      let id ←
        match pyIndex surf_to_extr s with
        | some i => Except.ok i
        | none => Except.error (Err.valueError "not in list")
      match vols.get? id with
      | some v => Except.ok v
      | none => Except.error Err.indexError)
    let frames1 := kv.2 ++ [vol_list]
    let new_surfs ← vol_list.mapM (fun v => do
      let id ←
        match pyIndex extr_surf v with
        | some i => Except.ok i
        | none => Except.error (Err.valueError "not in list")
      match pyGetElem? extr_surf ((id : Int) - 1) with
      | some e => Except.ok e
      | none => Except.error Err.indexError)
    return (kv.1, frames1 ++ [new_surfs]))

/-- Method `track_surface`: for each volume of the extrusion batch, record
the entity immediately preceding it in the batch (its new top surface;
Python's negative indexing wraps, so the fold never raises). -/
def track_surface (extr_surf : List Ent) : List Ent :=
  (extr_surf.filter (fun e => e.1 = 3)).foldl (fun surface v =>
    match pyIndex extr_surf v with
    | some id_vol =>
      match pyGetElem? extr_surf ((id_vol : Int) - 1) with
      | some e => surface ++ [e]
      | none => surface
    | none => surface) []

/-- The volume-selection loop of `_update_dot_vol`: the positions in the
extrusion batch of the volumes whose boundary set intersects the dot's
most recent surface frame `dot_below`. -/
def dot_vol_indices (bnd : Ent → List Ent) (extr_surf : List Ent)
    (dot_below : List Nat) : List Nat :=
  (extr_surf.filter (fun e => e.1 = 3)).foldl (fun acc v =>
    if (dot_below.map (fun t => ((2 : Nat), t))).any (fun s => s ∈ bnd v) then
      match pyIndex extr_surf v with
      | some ix => acc ++ [ix]
      | none => acc
    else acc) []

/-- Method `_update_dot_vol`: for each tracked dot, select the new volumes
adjacent to its previous surface frame (`dot_vol_indices` with the
engine's `getBoundary` answer `bnd`), append the surfaces below them as
the dot's next surface frame, and, when `dot_region` holds, append the
volumes to the dot's volume lineage, give them a physical name (generic
`dot{i}-{layer}` when no label is supplied) and store the material
metadata. -/
def update_dot_vol_step (bnd : Ent → List Ent) (extr_surf : List Ent)
    (dot_region : Bool) (label : Option (List String))
    (material : Option String) (pdoping ndoping : Int)
    (ed : Engine × DG) (i : Nat) : Except Err (Engine × DG) := do
    let eng := ed.1
    let dg := ed.2
    let dot := (dg.dot_tag.get? i).getD []
    let dot_below ←
      match dot.getLast? with
      | some d => Except.ok d
      | none => Except.error Err.indexError
    let vol_indices := dot_vol_indices bnd extr_surf dot_below
    let below ← vol_indices.mapM (fun (ix : Nat) =>
      match pyGetElem? extr_surf ((ix : Int) - 1) with
      | some e => Except.ok e.2
      | none => Except.error Err.indexError)
    let dg := { dg with dot_tag := dg.dot_tag.set i (dot ++ [below]) }
    if dot_region then do
      let vols ← vol_indices.mapM (fun ix =>
        match extr_surf.get? ix with
        | some e => Except.ok e.2
        | none => Except.error Err.indexError)
      let dg := { dg with
        dot_volume := dg.dot_volume.set i
          (((dg.dot_volume.get? i).getD []) ++ [vols]) }
      let dot_label ←
        match label with
        | none => Except.ok ("dot" ++ toString i ++ "-" ++ toString dg.layer_counter)
        | some ls =>
          match ls.get? i with
          | some s => Except.ok s
          | none => Except.error Err.indexError
      let pe := eng.addPhysicalGroup 3 vols
      let eng := pe.2.setPhysicalName 3 pe.1 dot_label
      let dg := store_mat_properties dot_label material pdoping ndoping dg
      return (eng, dg)
    else
      return (eng, dg)

/-- Method `_update_dot_vol`, the loop over the tracked dots (the loop
body is `update_dot_vol_step`). -/
def update_dot_vol (bnd : Ent → List Ent) (extr_surf : List Ent)
    (dot_region : Bool) (label : Option (List String))
    (material : Option String) (pdoping ndoping : Int)
    (eng : Engine) (dg : DG) : Except Err (Engine × DG) :=
  (List.range dg.dot_tag.length).foldlM
    (update_dot_vol_step bnd extr_surf dot_region label material pdoping ndoping)
    (eng, dg)

/-- Method `label_sides`: collect the side surfaces of the extrusion batch
(the entities strictly between a volume and the top surface of the next
group, plus those after the last volume), deduplicate them (CPython's
`list(set(...))` is modelled as first-occurrence deduplication) and give
each a generic `surf{n}` physical name. -/
def label_sides (extr_surf : List Ent) (eng : Engine) (dg : DG) :
    Engine × DG :=
  let vol_index := (List.range extr_surf.length).filter
    (fun i => ((extr_surf.get? i).map Prod.fst) = some 3)
  let side_surf := (List.range (vol_index.length - 1)).foldl
    (fun acc i =>
      let j := (vol_index.get? i).getD 0
      let k := (vol_index.get? (i + 1)).getD 0
      acc ++ pySlice extr_surf ((j : Int) + 1) ((k : Int) - 1)) []
  let side_surf := side_surf ++
    (match vol_index.getLast? with
     | some jl => pySlice extr_surf ((jl : Int) + 1) (extr_surf.length : Int)
     | none => [])
  let side_surf := side_surf.dedup
  side_surf.foldl (fun (ed : Engine × DG) e =>
    let n := ed.2.s_counter
    let name := "surf" ++ toString n
    let pe := ed.1.addPhysicalGroup 2 [e.2]
    let eng := pe.2.setPhysicalName 2 pe.1 name
    (eng, { ed.2 with s_counter := n + 1 })) (eng, dg)

/-- Method `new_layer`: mark `first_layer` false, extrude the bottom
surfaces (the engine's batch is the parameter `gs`), optionally label the
side surfaces, update the named-region lineages, reset `bottom_surface` to
the new top surfaces, update the dot registries, and give the volumes not
belonging to any dot column a physical name (generic `volume{n}` when no
label is supplied) with material metadata. -/
def new_layer (gs : List ExtrGroup) (bnd : Ent → List Ent)
    (label : Option String) (dot_region : Bool)
    (dot_label : Option (List String)) (material : Option String)
    (pdoping ndoping : Int) (labelSides : Bool)
    (eng : Engine) (dg : DG) : Except Err (Engine × DG) := do
  let dg := { dg with first_layer := false }
  let surf_to_extrude := dg.bottom_surface
  let extr_surf := batchOf gs
  let ed := if labelSides then label_sides extr_surf eng dg else (eng, dg)
  let eng := ed.1
  let dg := ed.2
  let ve ← update_vol_entities surf_to_extrude extr_surf dg.vol_entities
  let dg := { dg with vol_entities := ve }
  let dg := { dg with bottom_surface := track_surface extr_surf }
  let ed ← update_dot_vol bnd extr_surf dot_region dot_label material
    pdoping ndoping eng dg
  let eng := ed.1
  let dg := ed.2
  let flat_dot_vol := (dg.dot_volume.flatMap id).flatMap id
  let V := extr_surf.filter (fun e => e.1 = 3)
  let volumes := (V.filter (fun v => v.2 ∉ flat_dot_vol)).map Prod.snd
  let pe := eng.addPhysicalGroup 3 volumes
  let lbl :=
    match label with
    | none => "volume" ++ toString dg.layer_counter
    | some lb => lb
  let eng := pe.2.setPhysicalName 3 pe.1 lbl
  let dg := { dg with layer_counter := dg.layer_counter + 1 }
  let dg := store_mat_properties lbl material pdoping ndoping dg
  return (eng, dg)

/-- Method `get_names`: the names of all physical groups of a dimension,
in group order. -/
def get_names (eng : Engine) (dim : Nat) : List String :=
  (eng.getPhysicalGroups dim).map (fun pg => eng.getPhysicalName pg.1 pg.2)

/-- Method `_label_surfaces`: reset the lineage registries and give every
current 2D entity a fresh generic name `surf{n}`, seeding a single-frame
lineage for each. -/
def label_all_surfaces (eng : Engine) (dg : DG) : Engine × DG :=
  let dg := { dg with vol_entities := [], vol_entities_top := [] }
  eng.ents2.foldl (fun (ed : Engine × DG) e =>
    let n := ed.2.s_counter
    let name := "surf" ++ toString n
    let pe := ed.1.addPhysicalGroup 2 [e.2]
    let eng := pe.2.setPhysicalName 2 pe.1 name
    (eng,
     { ed.2 with
        vol_entities := dictSet ed.2.vol_entities name [[e]]
        vol_entities_top := dictSet ed.2.vol_entities_top name [[e]]
        s_counter := n + 1 })) (eng, dg)

/-- Method `_update_dot_frag`: replace each dot's footprint surfaces by
the fragment-result surfaces whose source includes them (`fragMap` is the
engine's fragment mapping, aligned with the pre-fragment surface list). -/
def update_dot_frag (surf : List Ent) (fragMap : List (List Ent))
    (dg : DG) : DG :=
  { dg with
     dot_tag := dg.dot_tag.map (fun dot =>
       let tags := dot.head?.getD []
       let indices := (List.range surf.length).filter (fun i =>
         match surf.get? i with
         | some s => s.2 ∈ tags
         | none => false)
       let new := indices.foldl (fun acc index =>
         acc ++ ((fragMap.get? index).getD []).map Prod.snd) []
       [new]) }

/-- Method `setup_top_layer`: raises `ValueError` unless `first_layer`
still holds; otherwise removes every 2D physical name and group, resets
the surface counter, Boolean-fragments all current 2D surfaces (the
engine's answer is the parameter pair `fragOut`/`fragMap`), updates the
dot footprints, snapshots the surface set as both `bottom_surface` and
`top_surface`, and assigns fresh generic names. -/
def setup_top_layer (fragOut : List Ent) (fragMap : List (List Ent))
    (eng : Engine) (dg : DG) : Except Err Unit × Engine × DG :=
  if !dg.first_layer then
    (.error (.valueError "Must setup top layer before adding new layers"), eng, dg)
  else
    let names := get_names eng 2
    let eng := names.foldl (fun eng n => eng.removePhysicalName n) eng
    let eng := eng.removePhysicalGroups []
    let dg := { dg with s_counter := 1 }
    let surfaces := eng.ents2
    let eng := { eng with ents2 := fragOut }
    let dg := update_dot_frag surfaces fragMap dg
    let dg := { dg with bottom_surface := eng.ents2, top_surface := eng.ents2 }
    let ed := label_all_surfaces eng dg
    (.ok (), ed.1, ed.2)

/-- Method `new_box_field`: only its effect on the tracker's field counter
is modelled (the mesh field lives in the engine's mesh module, out of
scope). -/
def new_box_field (dg : DG) : DG :=
  { dg with field_counter := dg.field_counter + 1 }

/-- Method `new_dot_rectangle`: create a 2D rectangle in the engine,
optionally attach a localized mesh field, append a new single-frame dot
lineage and an empty volume lineage, then rerun `setup_top_layer` (whose
failure propagates, leaving the appends in place and the dot counter
untouched). -/
def new_dot_rectangle (h : Option ℚ) (fragOut : List Ent)
    (fragMap : List (List Ent)) (eng : Engine) (dg : DG) :
    Except Err Nat × Engine × DG :=
  let surf := eng.nextEnt
  let eng := { eng with ents2 := eng.ents2 ++ [(2, surf)], nextEnt := surf + 1 }
  let dg := if h.isSome then new_box_field dg else dg
  let dg := { dg with
     dot_tag := dg.dot_tag ++ [[[surf]]]
     dot_volume := dg.dot_volume ++ [[]] }
  match setup_top_layer fragOut fragMap eng dg with
  | (.error e, eng, dg) => (.error e, eng, dg)
  | (.ok _, eng, dg) =>
    (.ok surf, eng, { dg with dot_counter := dg.dot_counter + 1 })

/-- The search loop of `get_tag_from_name` for a list of names: for each
name take the first physical group of the dimension bearing it (names
without a match are silently skipped). -/
def get_tags_of_names (eng : Engine) (names : List String) (dim : Nat) :
    List Nat :=
  names.foldl (fun tags N =>
    match (eng.getPhysicalGroups dim).find?
        (fun t => eng.getPhysicalName dim t.2 = N) with
    | some t => tags ++ [t.2]
    | none => tags) []

/-- Method `get_tag_from_name`: a single string yields the single tag
(`tags[0]` raises `IndexError` when the name is unknown), a list of
strings yields the list of found tags. -/
def get_tag_from_name (eng : Engine) (name : PyStr) (dim : Nat) :
    Except Err (Sum Nat (List Nat)) :=
  match name with
  | .s v =>
    match (get_tags_of_names eng [v] dim).head? with
    | some t => .ok (.inl t)
    | none => .error .indexError
  | .l vs => .ok (.inr (get_tags_of_names eng vs dim))

/-- Method `get_ent_tag_from_name`: entity tags of the groups found by
`get_tag_from_name`. -/
def get_ent_tag_from_name (eng : Engine) (name : PyStr) (dim : Nat) :
    Except Err (List Nat) := do
  let pt ← get_tag_from_name eng name dim
  let phys_tag :=
    match pt with
    | .inl t => [t]
    | .inr ts => ts
  return phys_tag.foldl
    (fun acc tag => acc ++ eng.getEntitiesForPhysicalGroup dim tag) []

/-- Method `remove_phys_groups`: remove the names and the 2D groups of the
given labels (mirroring gmsh, an empty tag list removes every group). -/
def remove_phys_groups (label : PyStr) (eng : Engine) : Engine :=
  let labels :=
    match label with
    | .s v => [v]
    | .l vs => vs
  let phys_tags := get_tags_of_names eng labels 2
  let eng := labels.foldl (fun eng l => eng.removePhysicalName l) eng
  eng.removePhysicalGroups (phys_tags.map (fun p => ((2 : Nat), p)))

/-- Method `_update_vol_entity_keys`: drop the old labels from the engine
name registry and the lineage registry, then seed `new_label` with a fresh
single-frame lineage over the given entity tags. -/
def update_vol_entity_keys (ent_tags : List Nat) (old_label : PyStr)
    (new_label : String) (eng : Engine) (dg : DG) : Engine × DG :=
  let olds :=
    match old_label with
    | .s v => [v]
    | .l vs => vs
  let ed := olds.foldl (fun (ed : Engine × DG) label =>
    (ed.1.removePhysicalName label,
     { ed.2 with vol_entities := dictPop ed.2.vol_entities label })) (eng, dg)
  let frame := [ent_tags.map (fun e => (((2 : Nat), e) : Ent))]
  (ed.1,
   { ed.2 with
      vol_entities := dictSet ed.2.vol_entities new_label frame
      vol_entities_top := dictSet ed.2.vol_entities_top new_label frame })

/-- Method `relabel_surface`.  With a new label: destroy the old groups,
re-create one group over the union of their entities under the new label,
store the boundary condition (only when a type is given), drop the
relabelled entities from `top_surface`, and reseed the lineage registry.
With `new_label = None`: remove the groups, after which the source
evaluates the local `ent_tags` that was never assigned on this path, so
Python raises `UnboundLocalError` (modelled by `Err.nameError`) with the
group removal already performed and no metadata deleted. -/
def relabel_surface (old_label : PyStr) (new_label : Option String)
    (bnd_type : Option String) (bnd_params : List Int)
    (eng : Engine) (dg : DG) : Except Err (List Nat) × Engine × DG :=
  match new_label with
  | none =>
    let eng := remove_phys_groups old_label eng
    (.error .nameError, eng, dg)
  | some nl =>
    match get_tag_from_name eng old_label 2 with
    | .error e => (.error e, eng, dg)
    | .ok pt =>
      let phys_tags :=
        match pt with
        | .inl t => [t]
        | .inr ts => ts
      match get_ent_tag_from_name eng old_label 2 with
      | .error e => (.error e, eng, dg)
      | .ok ent_tags =>
        let eng := eng.removePhysicalGroups
          (phys_tags.map (fun p => ((2 : Nat), p)))
        let pe := eng.addPhysicalGroup 2 ent_tags
        let eng := pe.2.setPhysicalName 2 pe.1 nl
        let dg := store_bnd_conditions nl bnd_type bnd_params dg
        let dg := { dg with
          top_surface := ent_tags.foldl
            (fun ts tag => ts.erase (2, tag)) dg.top_surface }
        let ed := update_vol_entity_keys ent_tags old_label nl eng dg
        (.ok ent_tags, ed.1, ed.2)

/-- Method `new_top_layer`: extrude either the named surfaces or the
current `top_surface` (the engine's batch is the parameter `gs`), name the
generated volumes (generic `volume{n}` when no label is given) with
material metadata, and name the new top surfaces under `bnd_label` with
the given boundary condition. -/
def new_top_layer (gs : List ExtrGroup)
    (surfs_to_extrude : Option PyStr) (label : Option String)
    (material : Option String) (pdoping ndoping : Int)
    (bnd_label : String) (bnd_type : Option String) (bnd_params : List Int)
    (eng : Engine) (dg : DG) : Except Err (Engine × DG) := do
  let _surfs ←
    match surfs_to_extrude with
    | none => Except.ok dg.top_surface
    | some nm => do
      let ents ← get_ent_tag_from_name eng nm 2
      Except.ok (ents.map (fun e => (((2 : Nat), e) : Ent)))
  let extr_surf := batchOf gs
  let V := (extr_surf.filter (fun e => e.1 = 3)).map Prod.snd
  let r : String × DG :=
    match label with
    | none => ("volume" ++ toString dg.layer_counter,
               { dg with layer_counter := dg.layer_counter + 1 })
    | some lb => (lb, dg)
  let lbl := r.1
  let dg := r.2
  let pvr := label_volume V lbl material pdoping ndoping eng dg
  let eng := pvr.2.1
  let dg := pvr.2.2
  let surfs := (track_surface extr_surf).map Prod.snd
  let psr := label_surface surfs bnd_label bnd_type bnd_params eng dg
  return (psr.2.1, psr.2.2)

/-- N sequential `new_layer` calls with default labelling arguments and no
dot tracking; the k-th call consumes the k-th extrusion batch. -/
def new_layers (batches : List (List ExtrGroup)) (bnd : Ent → List Ent)
    (eng : Engine) (dg : DG) : Except Err (Engine × DG) :=
  batches.foldlM (fun (ed : Engine × DG) gs =>
    new_layer gs bnd none false none none 0 0 false ed.1 ed.2) (eng, dg)

/-- K sequential `new_layer` calls that all opt into dot-column tracking
(`dot_region=True`, generic dot labels). -/
def new_dot_layers (batches : List (List ExtrGroup)) (bnd : Ent → List Ent)
    (eng : Engine) (dg : DG) : Except Err (Engine × DG) :=
  batches.foldlM (fun (ed : Engine × DG) gs =>
    new_layer gs bnd none true none none 0 0 false ed.1 ed.2) (eng, dg)

/-! ## Observers, invariants and concrete inputs used by the claims -/

/-- Recognizer for `Point` statements. -/
def isPointStmt : PStmt → Bool
  | .point _ _ _ => true
  | _ => false

/-- Recognizer for `Line` statements. -/
def isLineStmt : PStmt → Bool
  | .line _ _ _ => true
  | _ => false

/-- Recognizer for Boolean-fragment statements. -/
def isBFStmt : PStmt → Bool
  | .booleanFragments _ => true
  | _ => false

/-- Number of `Point` statements in a compilation result. -/
def pointCount (r : Except Err (PSt × List PStmt)) : Nat :=
  match r with
  | .ok so => (so.2.filter isPointStmt).length
  | .error _ => 0

/-- Number of Boolean-fragment statements in a compilation result. -/
def bfCount (r : Except Err (PSt × List PStmt)) : Nat :=
  match r with
  | .ok so => (so.2.filter isBFStmt).length
  | .error _ => 0

/-- Whether a compilation result is a normal return. -/
def resOk (r : Except Err (PSt × List PStmt)) : Bool :=
  match r with
  | .ok _ => true
  | .error _ => false

/-- Number of distinct layer identifiers registered by a compilation. -/
def layerCountOf (r : Except Err (PSt × List PStmt)) : Nat :=
  match r with
  | .ok so => so.1.layers.length
  | .error _ => 0

/-- Whether the two parsed scale factors of a compilation result violate
the `maskUnit = meterUnit * 1e6` invariant. -/
def unitsInconsistent (r : Except Err (PSt × List PStmt)) : Bool :=
  match r with
  | .ok so => decide (¬ Dec.eqv so.1.units_mum (Dec.mul1e6 so.1.units_m))
  | .error _ => false

/-- A two-layer mask whose `UNITS` record is inconsistent
(2000000.0 ≠ 1.0 * 1e6). -/
def maskC3 : List (List Char) :=
  ["UNITS 2000000.0 1.0\n".data, "LAYER 1 \n".data,
   "XY 0:0\n".data, "10:0\n".data, "10:10\n".data, "ENDEL\n".data]

/-- A well-formed mask with two distinct layer identifiers. -/
def maskC2 : List (List Char) :=
  ["UNITS 1000000.0 1.0\n".data, "LAYER 1 \n".data,
   "XY 0:0\n".data, "10:0\n".data, "10:10\n".data, "ENDEL\n".data,
   "LAYER 2 \n".data,
   "XY 3:3\n".data, "4:3\n".data, "4:4\n".data, "ENDEL\n".data]

/-- A mask whose single element repeats its first coordinate line `0:0`
as its last, giving four coordinate lines in total. -/
def maskC9 : List (List Char) :=
  ["UNITS 1000000.0 1.0\n".data, "LAYER 1 \n".data,
   "XY 0:0\n".data, "10:0\n".data, "10:10\n".data, "0:0\n".data,
   "ENDEL\n".data]

/-- Whether some group of the given dimension contains the entity: the
entity "has a physical name" in the sense of the labeling claims. -/
def coveredBy (eng : Engine) (dim e : Nat) : Bool :=
  eng.groups.any (fun g => g.1 = dim ∧ e ∈ g.2.2)

/-- Well-formedness of the engine model maintained by gmsh itself:
physical tags are unique and below the fresh-tag counter, both for groups
and for name bindings. -/
def EngineWF (eng : Engine) : Prop :=
  (eng.groups.map (fun g => g.2.1)).Nodup ∧
  (∀ g ∈ eng.groups, g.2.1 < eng.nextPtag) ∧
  (eng.names.map (fun n => (n.1, n.2.1))).Nodup ∧
  (∀ n ∈ eng.names, n.2.1 < eng.nextPtag)

instance (eng : Engine) : Decidable (EngineWF eng) := by
  unfold EngineWF
  infer_instance

/-- The lineage-shape invariant of a `vol_entities` entry after `N`
layers: `2N+1` frames alternating surface frame (even positions, dimension
2) and volume frame (odd positions, dimension 3), consecutive frames of
equal size, the most recent surface frame drawn from the current bottom
surfaces. -/
def framesInv (bottom : List Ent) (N : Nat) (frames : List (List Ent)) :
    Prop :=
  frames.length = 2 * N + 1 ∧
  (∀ i, i < frames.length → ∀ e ∈ frames.getD i [],
    e.1 = if i % 2 = 0 then 2 else 3) ∧
  (∀ i, i < frames.length → i + 1 < frames.length →
    (frames.getD (i + 1) []).length = (frames.getD i []).length) ∧
  (∀ e ∈ frames.getLastD [], e ∈ bottom)

instance (bottom : List Ent) (N : Nat) (frames : List (List Ent)) :
    Decidable (framesInv bottom N frames) := by
  unfold framesInv
  infer_instance

/-- The groups of an extrusion batch whose volume is adjacent to (shares a
boundary entity with) the dot surface frame `db`. -/
def adjacentGroups (bnd : Ent → List Ent) (db : List Nat)
    (gs : List ExtrGroup) : List ExtrGroup :=
  gs.filter (fun g =>
    (db.map (fun t => ((2 : Nat), t))).any (fun s => s ∈ bnd (3, g.vol)))

/-- A default device state mirroring `DeviceGenerator.__init__` before any
layout is loaded. -/
def DG.base : DG :=
  { first_layer := true, bottom_surface := [], top_surface := []
    layer_counter := 1, s_counter := 1, dot_counter := 1, field_counter := 1
    vol_entities := [], vol_entities_top := [], dot_tag := [], dot_volume := []
    material_dict := [], bnd_dict := [] }

/-- An empty engine model. -/
def Engine.base : Engine :=
  { ents2 := [], groups := [], names := [], nextPtag := 1, nextEnt := 1 }

/-- Engine with one 2D group `A = {1, 2}` (used to refute the collision
case of the labeling claim). -/
def engC4 : Engine :=
  { ents2 := [(2, 1), (2, 2)], groups := [(2, 1, [1, 2])]
    names := [(2, 1, "A")], nextPtag := 2, nextEnt := 3 }

/-- Engine with one 2D group `surf1 = {5}`. -/
def engC5 : Engine :=
  { ents2 := [(2, 5)], groups := [(2, 1, [5])]
    names := [(2, 1, "surf1")], nextPtag := 2, nextEnt := 6 }

/-- Device state owning boundary metadata for `surf1`. -/
def dgC5 : DG :=
  { DG.base with
     first_layer := false
     top_surface := [(2, 5)]
     vol_entities := [("surf1", [[(2, 5)]])]
     vol_entities_top := [("surf1", [[(2, 5)]])]
     bnd_dict := [("surf1", ⟨"ohmic", [1]⟩)] }

/-! ## Helper lemmas about the Python-semantics primitives -/

theorem pyIndex_get? {α : Type} [DecidableEq α] (l : List α) (x : α) :
    ∀ n, pyIndex l x = some n → l.get? n = some x := by
  induction l with
  | nil => intro n h; simp [pyIndex] at h
  | cons a as ih =>
    intro n h
    by_cases hax : a = x
    · subst hax
      simp [pyIndex] at h
      subst h
      rfl
    · simp [pyIndex, hax] at h
      obtain ⟨m, hm, rfl⟩ := h
      simpa using ih m hm

theorem pyIndex_lt_length {α : Type} [DecidableEq α] {l : List α} {x : α}
    {n : Nat} (h : pyIndex l x = some n) : n < l.length := by
  have h2 := pyIndex_get? l x n h
  exact (List.get?_eq_some.mp h2).1

theorem pyIndex_of_mem {α : Type} [DecidableEq α] {l : List α} {x : α}
    (h : x ∈ l) : ∃ n, pyIndex l x = some n := by
  induction l with
  | nil => simp at h
  | cons a as ih =>
    by_cases hax : a = x
    · exact ⟨0, by simp [pyIndex, hax]⟩
    · rcases List.mem_cons.mp h with h1 | h2
      · exact absurd h1.symm hax
      · obtain ⟨n, hn⟩ := ih h2
        exact ⟨n + 1, by simp [pyIndex, hax, hn]⟩

theorem pyIndex_append_of_notMem {α : Type} [DecidableEq α] {l₁ : List α}
    (l₂ : List α) (x : α) (h : x ∉ l₁) :
    pyIndex (l₁ ++ l₂) x = (pyIndex l₂ x).map (· + l₁.length) := by
  induction l₁ with
  | nil => simp
  | cons a t ih =>
    have hax : ¬ a = x := fun hc => h (hc ▸ List.mem_cons_self a t)
    have ht : x ∉ t := fun hc => h (List.mem_cons_of_mem a hc)
    simp only [List.cons_append, pyIndex, hax, if_false, List.append_eq]
    rw [ih ht, Option.map_map]
    cases pyIndex l₂ x with
    | none => rfl
    | some n =>
      simp only [Option.map_some', Option.some.injEq, Function.comp,
        List.length_cons]
      omega

theorem pyGetElem?_natCast {α : Type} (l : List α) (n : Nat) :
    pyGetElem? l (n : Int) = l.get? n := by
  have h1 : ¬ ((n : Int) < 0) := not_lt.mpr (Int.natCast_nonneg n)
  simp [pyGetElem?, h1]

theorem batchOf_append (a b : List ExtrGroup) :
    batchOf (a ++ b) = batchOf a ++ batchOf b := by
  simp [batchOf]

theorem filter3_batchOf (gs : List ExtrGroup) :
    (batchOf gs).filter (fun e => e.1 = 3) =
      gs.map (fun g => ((3 : Nat), g.vol)) := by
  induction gs with
  | nil => rfl
  | cons g t ih =>
    have hsides : (g.sides.map (fun t => ((2 : Nat), t))).filter
        (fun e : Ent => e.1 = 3) = [] := by
      simp [List.filter_eq_nil_iff]
    simp [batchOf, List.filter_append, hsides] at ih ⊢
    exact ih

theorem mem_batchOf_dim3 {gs : List ExtrGroup} {v : Nat}
    (h : (((3 : Nat), v) : Ent) ∈ batchOf gs) : ∃ g ∈ gs, v = g.vol := by
  induction gs with
  | nil => simp [batchOf] at h
  | cons g t ih =>
    simp only [batchOf, List.flatMap_cons] at h
    rcases List.mem_append.mp h with h1 | h2
    · rcases List.mem_cons.mp h1 with h3 | h4
      · exact absurd (congrArg Prod.fst h3) (by simp)
      · rcases List.mem_cons.mp h4 with h5 | h6
        · exact ⟨g, List.mem_cons_self g t, (Prod.mk.injEq _ _ _ _).mp h5 |>.2⟩
        · obtain ⟨s, _, hs⟩ := List.mem_map.mp h6
          exact absurd (congrArg Prod.fst hs.symm) (by simp)
    · obtain ⟨g', hg', hv⟩ := ih h2
      exact ⟨g', List.mem_cons_of_mem g hg', hv⟩

theorem batch_locate {gs : List ExtrGroup} {j : Nat} {g : ExtrGroup}
    (hj : gs.get? j = some g) (hnd : (gs.map ExtrGroup.vol).Nodup) :
    ∃ n, pyIndex (batchOf gs) (3, g.vol) = some n ∧ 1 ≤ n ∧
      pyGetElem? (batchOf gs) ((n : Int) - 1) = some (2, g.top) ∧
      (batchOf gs).get? n = some (3, g.vol) := by
  obtain ⟨hlt, hgj⟩ := List.get?_eq_some.mp hj
  have hsplit : gs = gs.take j ++ g :: gs.drop (j + 1) := by
    conv_lhs => rw [← List.take_append_drop j gs]
    rw [List.drop_eq_get_cons hlt, hgj]
  have hvol : ∀ g' ∈ gs.take j, g'.vol ≠ g.vol := by
    intro g' hg' heq
    have hmapsplit : gs.map ExtrGroup.vol =
        (gs.take j).map ExtrGroup.vol ++
          g.vol :: (gs.drop (j + 1)).map ExtrGroup.vol := by
      conv_lhs => rw [hsplit]
      simp
    rw [hmapsplit] at hnd
    have hdisj := (List.nodup_append.mp hnd).2.2
    exact hdisj (heq ▸ List.mem_map_of_mem ExtrGroup.vol hg')
      (List.mem_cons_self _ _)
  have hb : batchOf gs = batchOf (gs.take j) ++
      ((2, g.top) :: (3, g.vol) :: g.sides.map (fun t => ((2 : Nat), t)) ++
        batchOf (gs.drop (j + 1))) := by
    conv_lhs => rw [hsplit]
    rw [batchOf_append]
    simp [batchOf]
  have hnm : (((3 : Nat), g.vol) : Ent) ∉
      batchOf (gs.take j) ++ [((2 : Nat), g.top)] := by
    intro hmem
    rcases List.mem_append.mp hmem with h1 | h2
    · obtain ⟨g', hg', hv⟩ := mem_batchOf_dim3 h1
      exact hvol g' hg' hv.symm
    · simp at h2
  have hb2 : batchOf gs = (batchOf (gs.take j) ++ [((2 : Nat), g.top)]) ++
      ((3, g.vol) :: (g.sides.map (fun t => ((2 : Nat), t)) ++
        batchOf (gs.drop (j + 1)))) := by
    rw [hb]; simp
  refine ⟨(batchOf (gs.take j)).length + 1, ?_, by omega, ?_, ?_⟩
  · rw [hb2, pyIndex_append_of_notMem _ _ hnm]
    simp [pyIndex]
  · have hcast : (((batchOf (gs.take j)).length + 1 : Nat) : Int) - 1 =
        ((batchOf (gs.take j)).length : Int) := by push_cast; ring
    rw [hcast, pyGetElem?_natCast, hb]
    rw [List.get?_append_right (Nat.le_refl _)]
    simp
  · rw [hb]
    rw [List.get?_append_right (by omega)]
    have : (batchOf (gs.take j)).length + 1 - (batchOf (gs.take j)).length = 1 := by
      omega
    rw [this]
    rfl


theorem flatMap_singleton_eq_map {α β : Type} (f : α → List β) (m : α → β) :
    ∀ l : List α, (∀ a ∈ l, f a = [m a]) → l.flatMap f = l.map m := by
  intro l
  induction l with
  | nil => simp
  | cons a t ih =>
    intro h
    simp only [List.flatMap_cons, h a (List.mem_cons_self a t), List.map_cons,
      ih (fun x hx => h x (List.mem_cons_of_mem a hx))]
    rfl

theorem track_surface_foldl (extr : List Ent) (l : List Ent) :
    ∀ init : List Ent,
      l.foldl (fun surface v =>
        match pyIndex extr v with
        | some id_vol =>
          match pyGetElem? extr ((id_vol : Int) - 1) with
          | some e => surface ++ [e]
          | none => surface
        | none => surface) init
      = init ++ l.flatMap (fun v => ((pyIndex extr v).bind
          (fun id => pyGetElem? extr ((id : Int) - 1))).toList) := by
  induction l with
  | nil => intro init; simp
  | cons a t ih =>
    intro init
    simp only [List.foldl_cons, List.flatMap_cons]
    cases h1 : pyIndex extr a with
    | none => simp [ih]
    | some id =>
      cases h2 : pyGetElem? extr ((id : Int) - 1) with
      | none => simp [h2, ih]
      | some e => simp [h2, ih]

theorem track_surface_eq (extr : List Ent) :
    track_surface extr = (extr.filter (fun e => e.1 = 3)).flatMap
      (fun v => ((pyIndex extr v).bind
        (fun id => pyGetElem? extr ((id : Int) - 1))).toList) := by
  unfold track_surface
  rw [track_surface_foldl]
  simp

theorem track_surface_batch (gs : List ExtrGroup)
    (hnd : (gs.map ExtrGroup.vol).Nodup) :
    track_surface (batchOf gs) = gs.map (fun g => ((2 : Nat), g.top)) := by
  rw [track_surface_eq, filter3_batchOf]
  rw [List.flatMap_map]
  apply flatMap_singleton_eq_map
  intro g hg
  obtain ⟨j, hj⟩ := List.mem_iff_get?.mp hg
  obtain ⟨n, hn, _, hprev, _⟩ := batch_locate hj hnd
  simp [Function.comp, hn, hprev]

theorem mapM_ok_spec {α β : Type} (f : α → Except Err β) :
    ∀ l : List α, (∀ x ∈ l, ∃ y, f x = .ok y) →
      ∃ l', l.mapM f = .ok l' ∧ l'.length = l.length ∧
        ∀ q x, l.get? q = some x → ∃ y, f x = .ok y ∧ l'.get? q = some y := by
  intro l
  induction l with
  | nil => exact fun _ => ⟨[], rfl, rfl, by simp⟩
  | cons a t ih =>
    intro h
    obtain ⟨y, hy⟩ := h a (List.mem_cons_self a t)
    obtain ⟨l', hl', hlen, hq⟩ := ih (fun x hx => h x (List.mem_cons_of_mem a hx))
    refine ⟨y :: l', ?_, by simp [hlen], ?_⟩
    · rw [List.mapM_cons, hy, hl']
      rfl
    · intro q x hqx
      cases q with
      | zero =>
        rw [List.get?_cons_zero] at hqx
        obtain rfl := Option.some.inj hqx
        exact ⟨y, hy, rfl⟩
      | succ p =>
        rw [List.get?_cons_succ] at hqx
        obtain ⟨z, hz, hget⟩ := hq p x hqx
        exact ⟨z, hz, by rw [List.get?_cons_succ]; exact hget⟩

theorem foldlM_proj {σ α β : Type} (f : σ → α → Except Err σ) (proj : σ → β)
    (hf : ∀ s a s', f s a = .ok s' → proj s' = proj s) :
    ∀ (l : List α) (s s' : σ), l.foldlM f s = .ok s' → proj s' = proj s := by
  intro l
  induction l with
  | nil =>
    intro s s' h
    have h2 : (Except.ok s : Except Err σ) = Except.ok s' := h
    rw [← Except.ok.inj h2]
  | cons a t ih =>
    intro s s' h
    have h2 : (f s a >>= fun s1 => t.foldlM f s1) = Except.ok s' := h
    cases hfa : f s a with
    | error e =>
      rw [hfa] at h2
      have h3 : (Except.error e : Except Err σ) = Except.ok s' := h2
      exact Except.noConfusion h3
    | ok s1 =>
      rw [hfa] at h2
      have h3 : t.foldlM f s1 = Except.ok s' := h2
      exact (ih s1 s' h3).trans (hf s a s1 hfa)

/-! ## Facts about `_create_elements` and the parser claims -/

theorem create_elements_filter_line (st : PSt) (cp : Nat) (ly : Char) :
    (create_elements st cp ly).2.filter isLineStmt =
      (List.range (st.pt_counter - 1 - cp)).map
        (fun i => PStmt.line (st.line_counter + i) (cp + i) (cp + i + 1)) ++
      [PStmt.line (st.line_counter + (st.pt_counter - 1 - cp))
        (st.pt_counter - 1) cp] := by
  have hconn : ∀ x ∈ (List.range (st.pt_counter - 1 - cp)).map
      (fun i => PStmt.line (st.line_counter + i) (cp + i) (cp + i + 1)),
      isLineStmt x = true := by
    intro x hx
    obtain ⟨i, _, rfl⟩ := List.mem_map.mp hx
    rfl
  simp only [create_elements, List.filter_append]
  rw [List.filter_eq_self.mpr hconn]
  simp [isLineStmt]

theorem create_elements_no_points (st : PSt) (cp : Nat) (ly : Char) :
    (create_elements st cp ly).2.filter isPointStmt = [] := by
  simp only [create_elements, List.filter_append]
  rw [List.filter_eq_nil_iff.mpr, List.filter_eq_nil_iff.mpr]
  · rfl
  · intro x hx
    simp only [List.mem_cons, List.not_mem_nil, or_false] at hx
    rcases hx with rfl | rfl | rfl | rfl <;> simp [isPointStmt]
  · intro x hx
    obtain ⟨i, _, rfl⟩ := List.mem_map.mp hx
    simp [isPointStmt]

theorem create_elements_no_bf (st : PSt) (cp : Nat) (ly : Char) :
    (create_elements st cp ly).2.filter isBFStmt = [] := by
  simp only [create_elements, List.filter_append]
  rw [List.filter_eq_nil_iff.mpr, List.filter_eq_nil_iff.mpr]
  · rfl
  · intro x hx
    simp only [List.mem_cons, List.not_mem_nil, or_false] at hx
    rcases hx with rfl | rfl | rfl | rfl <;> simp [isBFStmt]
  · intro x hx
    obtain ⟨i, _, rfl⟩ := List.mem_map.mp hx
    simp [isBFStmt]

/-- C8: for every element — with `N = pt_counter - checkpoint` emitted
points — `_create_elements` emits exactly `N` `Line` statements, namely
`N-1` lines connecting consecutive points plus one closing line from the
last point back to the first, and the emitted curve loop is unique and
references exactly those `N` line identifiers, so every emitted curve
loop is closed. -/
theorem C8_curve_loops_closed (st : PSt) (cp : Nat) (ly : Char)
    (h : cp < st.pt_counter) :
    ((create_elements st cp ly).2.filter isLineStmt).length =
      st.pt_counter - cp ∧
    (create_elements st cp ly).2.filter isLineStmt =
      (List.range (st.pt_counter - cp - 1)).map
        (fun i => PStmt.line (st.line_counter + i) (cp + i) (cp + i + 1)) ++
      [PStmt.line (st.line_counter + (st.pt_counter - cp - 1))
        (st.pt_counter - 1) cp] ∧
    (∀ n ids, PStmt.curveLoop n ids ∈ (create_elements st cp ly).2 →
      n = st.cl_counter ∧
      ids = List.range' st.line_counter (st.pt_counter - cp)) ∧
    PStmt.curveLoop st.cl_counter
      (List.range' st.line_counter (st.pt_counter - cp)) ∈
      (create_elements st cp ly).2 := by
  have hk : st.pt_counter - 1 - cp = st.pt_counter - cp - 1 := by omega
  have hfl := create_elements_filter_line st cp ly
  rw [hk] at hfl
  have hn : st.pt_counter - cp - 1 + 1 = st.pt_counter - cp := by omega
  have hrange : st.line_counter + (st.pt_counter - 1 - cp) + 1 -
      st.line_counter = st.pt_counter - cp := by omega
  refine ⟨?_, hfl, ?_, ?_⟩
  · rw [hfl]
    simp [hn]
  · intro n ids hmem
    simp only [create_elements] at hmem
    rcases List.mem_append.mp hmem with h1 | h2
    · obtain ⟨i, _, hi⟩ := List.mem_map.mp h1
      exact absurd hi (by simp)
    · simp only [List.mem_cons, List.not_mem_nil, or_false] at h2
      rcases h2 with h3 | h3 | h3 | h3
      · exact absurd h3 (by simp)
      · obtain ⟨rfl, rfl⟩ := (PStmt.curveLoop.injEq _ _ _ _).mp h3
        exact ⟨rfl, by rw [hrange]⟩
      · exact absurd h3 (by simp)
      · exact absurd h3 (by simp)
  · simp only [create_elements]
    refine List.mem_append.mpr (Or.inr ?_)
    rw [hrange]
    exact List.mem_cons_of_mem _ (List.mem_cons_self _ _)

theorem C8_witness :
    1 < (PSt.mk 4 1 1 1 [] ⟨0, 0⟩ ⟨0, 0⟩).pt_counter ∧
    ((create_elements (PSt.mk 4 1 1 1 [] ⟨0, 0⟩ ⟨0, 0⟩) 1 '1').2.filter
      isLineStmt).length = 3 ∧
    PStmt.curveLoop 1 (List.range' 1 3) ∈
      (create_elements (PSt.mk 4 1 1 1 [] ⟨0, 0⟩ ⟨0, 0⟩) 1 '1').2 := by
  have h := C8_curve_loops_closed (PSt.mk 4 1 1 1 [] ⟨0, 0⟩ ⟨0, 0⟩) 1 '1'
    (by decide)
  exact ⟨by decide, h.1, h.2.2.2⟩

theorem isPointStmt_format_point (st : PSt) (b : List Char) :
    isPointStmt (format_point st b) = true := rfl

/-- C9 (amended): inside an element, every coordinate line distinct from
the element's first coordinate line `l` emits exactly one `Point`
statement, while lines equal to `l` — in particular a repeated final
coordinate — are skipped and emit none, so the element's `Point` count is
the number of body lines different from `l` plus the initial point. -/
theorem C9_repeated_first_coordinate_skipped (ly : Char) (l : List Char)
    (cp : Nat) :
    ∀ (body : List (List Char)) (st : PSt),
      (∀ b ∈ body, ("ENDEL".data).isPrefixOf b = false) →
      ∃ st2 out,
        parse_points st (some ly) (some (l, cp))
          (body ++ [("ENDEL\n".data)]) = .ok (st2, out) ∧
        (out.filter isPointStmt).length =
          (body.filter (fun b => b ≠ l)).length := by
  intro body
  induction body with
  | nil =>
    intro st _
    have hpfx : ("ENDEL".data).isPrefixOf ("ENDEL\n".data) = true := by decide
    refine ⟨(create_elements st cp ly).1,
      PStmt.blank :: (create_elements st cp ly).2 ++ [], ?_, ?_⟩
    · simp [parse_points, hpfx, Except.map]
    · simp [List.filter_append, create_elements_no_points, isPointStmt]
  | cons b t ih =>
    intro st h
    have hb := h b (List.mem_cons_self b t)
    have ht : ∀ x ∈ t, ("ENDEL".data).isPrefixOf x = false :=
      fun x hx => h x (List.mem_cons_of_mem b hx)
    by_cases hbl : b = l
    · subst hbl
      obtain ⟨st2, out, hrec, hcount⟩ := ih st ht
      refine ⟨st2, out, ?_, ?_⟩
      · simp [parse_points, hb, hrec, Except.map]
      · simpa using hcount
    · obtain ⟨st2, out, hrec, hcount⟩ :=
        ih { st with pt_counter := st.pt_counter + 1 } ht
      refine ⟨st2, format_point st b :: out, ?_, ?_⟩
      · simp [parse_points, hb, hbl, hrec, Except.map]
      · simp [isPointStmt_format_point, hcount, hbl]

/-- C9 (counterexample): `maskC9` has four coordinate lines, the last
repeating the first, yet the compiler emits only three `Point` statements
— the repeated final coordinate produces no `Point` statement, contrary to
the claim. -/
theorem C9_counterexample :
    (maskC9.filter (fun ln => ':' ∈ ln)).length = 4 ∧
    pointCount (parse PSt.init maskC9) = 3 := by decide

theorem C9_witness :
    (∀ b ∈ [("10:0\n".data), ("10:10\n".data), ("0:0\n".data)],
      ("ENDEL".data).isPrefixOf b = false) ∧
    (∃ st2 out,
      parse_points (PSt.mk 2 1 1 1 [('1', [])] ⟨0, 0⟩ ⟨0, 0⟩) (some '1')
        (some (("0:0\n".data), 1))
        ([("10:0\n".data), ("10:10\n".data), ("0:0\n".data)] ++
          [("ENDEL\n".data)]) = .ok (st2, out) ∧
      (out.filter isPointStmt).length =
        ([("10:0\n".data), ("10:10\n".data), ("0:0\n".data)].filter
          (fun b => b ≠ ("0:0\n".data))).length) :=
  ⟨by decide,
   C9_repeated_first_coordinate_skipped '1' ("0:0\n".data) 1
     [("10:0\n".data), ("10:10\n".data), ("0:0\n".data)]
     (PSt.mk 2 1 1 1 [('1', [])] ⟨0, 0⟩ ⟨0, 0⟩) (by decide)⟩

/-! ## C2: Boolean-fragment statements -/


theorem except_map_cons_ok {r : Except Err (PSt × List PStmt)} {p : PStmt}
    {st2 : PSt} {out : List PStmt}
    (h : r.map (fun so => (so.1, p :: so.2)) = .ok (st2, out)) :
    ∃ so, r = .ok so ∧ st2 = so.1 ∧ out = p :: so.2 := by
  cases r with
  | error e => simp [Except.map] at h
  | ok so =>
    simp only [Except.map] at h
    obtain ⟨h1, h2⟩ := Prod.mk.injEq _ _ _ _ |>.mp (Except.ok.inj h)
    exact ⟨so, rfl, h1.symm, h2.symm⟩

theorem except_map_blank_ok {r : Except Err (PSt × List PStmt)}
    {ce : List PStmt} {st2 : PSt} {out : List PStmt}
    (h : r.map (fun so => (so.1, PStmt.blank :: ce ++ so.2)) = .ok (st2, out)) :
    ∃ so, r = .ok so ∧ st2 = so.1 ∧ out = PStmt.blank :: ce ++ so.2 := by
  cases r with
  | error e => simp [Except.map] at h
  | ok so =>
    simp only [Except.map] at h
    obtain ⟨h1, h2⟩ := Prod.mk.injEq _ _ _ _ |>.mp (Except.ok.inj h)
    exact ⟨so, rfl, h1.symm, h2.symm⟩

theorem parse_points_no_bf :
    ∀ (lines : List (List Char)) (st : PSt) (layer : Option Char)
      (mode : Option (List Char × Nat)) (st2 : PSt) (out : List PStmt),
      parse_points st layer mode lines = .ok (st2, out) →
      out.filter isBFStmt = [] := by
  intro lines
  induction lines with
  | nil =>
    intro st layer mode st2 out h
    cases mode with
    | none =>
      obtain ⟨_, rfl⟩ := Prod.mk.injEq _ _ _ _ |>.mp (Except.ok.inj h)
      rfl
    | some lcp =>
      obtain ⟨_, rfl⟩ := Prod.mk.injEq _ _ _ _ |>.mp (Except.ok.inj h)
      rfl
  | cons line rest ih =>
    intro st layer mode st2 out h
    have hfp : ∀ s l2, isBFStmt (format_point s l2) = false := fun _ _ => rfl
    cases mode with
    | some lcp =>
      simp only [parse_points] at h
      split at h
      · cases layer with
        | none => exact Except.noConfusion h
        | some ly =>
          obtain ⟨so, hrec, _, rfl⟩ := except_map_blank_ok h
          simp only [List.filter_cons, List.filter_append,
            create_elements_no_bf, ih _ _ _ _ _ hrec]
          rfl
      · split at h
        · obtain ⟨so, hrec, _, rfl⟩ := except_map_cons_ok h
          simp only [List.filter_cons, hfp, ih _ _ _ _ _ hrec]
          rfl
        · exact ih _ _ _ _ _ h
    | none =>
      simp only [parse_points] at h
      split at h
      · exact Except.noConfusion h
      · split at h
        · obtain ⟨so, hrec, _, rfl⟩ := except_map_cons_ok h
          simp only [List.filter_cons, hfp, ih _ _ _ _ _ hrec]
          rfl
        · exact ih _ _ _ _ _ h

theorem tail_get? {α : Type} (l : List α) (n : Nat) :
    l.tail.get? n = l.get? (n + 1) := by
  cases l <;> simp

theorem zip_get?_some {α β : Type} :
    ∀ {l : List α} {l' : List β} {i : Nat} {a : α} {b : β},
      l.get? i = some a → l'.get? i = some b →
      (l.zip l').get? i = some (a, b) := by
  intro l
  induction l with
  | nil => intro l' i a b ha; simp at ha
  | cons x t ih =>
    intro l' i a b ha hb
    cases l' with
    | nil => simp at hb
    | cons y t' =>
      cases i with
      | zero =>
        rw [List.get?_cons_zero] at ha hb
        obtain rfl := Option.some.inj ha
        obtain rfl := Option.some.inj hb
        rfl
      | succ p =>
        rw [List.get?_cons_succ] at ha hb
        simpa [List.zip_cons_cons] using ih ha hb

/-- C2 (amended): `parse` itself emits no Boolean-fragment statement on
any input (it never invokes `_create_surfaces`); the `_create_surfaces`
helper, if invoked after all elements are processed, emits exactly one
Boolean-fragment statement for each pair of layer identifiers adjacent in
ascending sorted order, whose operand is the union of both layers' stored
surface identifiers and which instructs the engine to delete the
originals. -/
theorem C2_boolean_fragments :
    (∀ (st : PSt) (lines : List (List Char)) (st2 : PSt) (out : List PStmt),
      parse st lines = .ok (st2, out) → out.filter isBFStmt = []) ∧
    (∀ st : PSt,
      (create_surfaces st).length =
        ((st.layers.map Prod.fst).insertionSort (fun a b => a ≤ b)).length - 1 ∧
      ∀ i a b,
        ((st.layers.map Prod.fst).insertionSort
          (fun a b => a ≤ b)).get? i = some a →
        ((st.layers.map Prod.fst).insertionSort
          (fun a b => a ≤ b)).get? (i + 1) = some b →
        (create_surfaces st).get? i =
          some (PStmt.booleanFragments
            (layersGet st.layers a ++ layersGet st.layers b))) := by
  constructor
  · intro st lines st2 out h
    unfold parse at h
    cases hh : create_header st lines with
    | error e => rw [hh] at h; exact Except.noConfusion h
    | ok hr =>
      rw [hh] at h
      have h2 : Except.map (fun so => (so.1, [PStmt.header, PStmt.blank] ++ so.2))
          (parse_points hr.1 none none hr.2) = Except.ok (st2, out) := h
      cases hp : parse_points hr.1 none none hr.2 with
      | error e => rw [hp] at h2; simp [Except.map] at h2
      | ok so =>
        rw [hp] at h2
        simp only [Except.map] at h2
        obtain ⟨_, rfl⟩ := Prod.mk.injEq _ _ _ _ |>.mp (Except.ok.inj h2)
        have hnb := parse_points_no_bf hr.2 hr.1 none none so.1 so.2 hp
        simp [List.filter_append, isBFStmt, hnb]
  · intro st
    constructor
    · simp only [create_surfaces, List.length_map, List.length_zip,
        List.length_tail]
      omega
    · intro i a b ha hb
      have hb' : ((st.layers.map Prod.fst).insertionSort
          (fun a b => a ≤ b)).tail.get? i = some b := by
        rw [tail_get?]
        exact hb
      have hz := zip_get?_some ha hb'
      simp only [create_surfaces]
      rw [List.get?_map, hz]
      rfl

/-- C2 (counterexample): the two-layer mask `maskC2` registers two layer
identifiers, yet the compilation emits no Boolean-fragment statement at
all, contrary to the claim that one is emitted per adjacent pair. -/
theorem C2_counterexample :
    layerCountOf (parse PSt.init maskC2) = 2 ∧
    bfCount (parse PSt.init maskC2) = 0 := by decide

theorem C2_witness :
    bfCount (parse PSt.init maskC2) = 0 ∧
    (create_surfaces
      (PSt.mk 1 1 1 1 [('1', [1]), ('2', [2])] ⟨0, 0⟩ ⟨0, 0⟩)).get? 0 =
      some (PStmt.booleanFragments [1, 2]) := by
  constructor
  · rcases heval : parse PSt.init maskC2 with e | r
    · have hok : resOk (parse PSt.init maskC2) = true := by decide
      rw [heval] at hok
      simp [resOk] at hok
    · have h0 := C2_boolean_fragments.1 PSt.init maskC2 r.1 r.2 heval
      simp [bfCount, heval, h0]
  · have h2 := (C2_boolean_fragments.2
      (PSt.mk 1 1 1 1 [('1', [1]), ('2', [2])] ⟨0, 0⟩ ⟨0, 0⟩)).2 0 '1' '2'
      (by decide) (by decide)
    exact h2

/-- C3: a mask whose `Units` record is inconsistent (here
`2000000.0 ≠ 1.0 * 1e6`) is not rejected — the source constructs
`ValueError('Units do not match')` without raising it — and the compiler
goes on to emit geometry statements, contrary to the claim. -/
theorem C3_units_mismatch_not_rejected :
    resOk (parse PSt.init maskC3) = true ∧
    unitsInconsistent (parse PSt.init maskC3) = true ∧
    0 < pointCount (parse PSt.init maskC3) := by decide

/-! ## Claims about the device tracker: sequencing and frame effects -/

theorem foldl_proj {σ α β : Type} (f : σ → α → σ) (proj : σ → β)
    (hf : ∀ s a, proj (f s a) = proj s) :
    ∀ (l : List α) (s : σ), proj (l.foldl f s) = proj s := by
  intro l
  induction l with
  | nil => intro s; rfl
  | cons a t ih => intro s; rw [List.foldl_cons, ih, hf]

theorem label_sides_foldl_first_layer (l : List Ent) :
    ∀ ed : Engine × DG,
      (l.foldl (fun (ed : Engine × DG) e =>
        let n := ed.2.s_counter
        let name := "surf" ++ toString n
        let pe := ed.1.addPhysicalGroup 2 [e.2]
        let eng := pe.2.setPhysicalName 2 pe.1 name
        (eng, { ed.2 with s_counter := n + 1 })) ed).2.first_layer =
      ed.2.first_layer := by
  induction l with
  | nil => intro ed; rfl
  | cons a t ih => intro ed; rw [List.foldl_cons, ih]

theorem label_sides_first_layer (extr : List Ent) (eng : Engine) (dg : DG) :
    (label_sides extr eng dg).2.first_layer = dg.first_layer := by
  unfold label_sides
  exact label_sides_foldl_first_layer _ (eng, dg)

theorem setup_top_layer_err (fo : List Ent) (fm : List (List Ent))
    (eng : Engine) (dg : DG) (hdg : dg.first_layer = false) :
    setup_top_layer fo fm eng dg =
      (.error (.valueError "Must setup top layer before adding new layers"),
        eng, dg) := by
  simp [setup_top_layer, hdg]

theorem update_dot_vol_step_proj (bnd : Ent → List Ent) (extr : List Ent)
    (dr : Bool) (lbl : Option (List String)) (mat : Option String)
    (p n : Int) (ed : Engine × DG) (i : Nat) (ed' : Engine × DG)
    (h : update_dot_vol_step bnd extr dr lbl mat p n ed i = .ok ed') :
    ed'.2.first_layer = ed.2.first_layer ∧
    ed'.2.vol_entities = ed.2.vol_entities ∧
    ed'.2.bottom_surface = ed.2.bottom_surface ∧
    ed'.2.bnd_dict = ed.2.bnd_dict ∧
    ed'.2.layer_counter = ed.2.layer_counter ∧
    ed'.2.top_surface = ed.2.top_surface := by
  unfold update_dot_vol_step at h
  simp only [bind, Except.bind] at h
  repeat' split at h
  all_goals
    first
    | exact Except.noConfusion h
    | (obtain rfl := Except.ok.inj h; exact ⟨rfl, rfl, rfl, rfl, rfl, rfl⟩)

theorem update_dot_vol_proj (bnd : Ent → List Ent) (extr : List Ent)
    (dr : Bool) (lbl : Option (List String)) (mat : Option String)
    (p n : Int) (eng : Engine) (dg : DG) (eng' : Engine) (dg' : DG)
    (h : update_dot_vol bnd extr dr lbl mat p n eng dg = .ok (eng', dg')) :
    dg'.first_layer = dg.first_layer ∧
    dg'.vol_entities = dg.vol_entities ∧
    dg'.bottom_surface = dg.bottom_surface ∧
    dg'.bnd_dict = dg.bnd_dict ∧
    dg'.layer_counter = dg.layer_counter ∧
    dg'.top_surface = dg.top_surface := by
  unfold update_dot_vol at h
  have hp := foldlM_proj (update_dot_vol_step bnd extr dr lbl mat p n)
    (fun ed => (ed.2.first_layer, ed.2.vol_entities, ed.2.bottom_surface,
      ed.2.bnd_dict, ed.2.layer_counter, ed.2.top_surface))
    (fun s a s' hs => by
      obtain ⟨h1, h2, h3, h4, h5, h6⟩ :=
        update_dot_vol_step_proj bnd extr dr lbl mat p n s a s' hs
      simp [h1, h2, h3, h4, h5, h6])
    (List.range dg.dot_tag.length) (eng, dg) (eng', dg') h
  simpa using hp

theorem new_layer_first_layer (gs : List ExtrGroup) (bnd : Ent → List Ent)
    (label : Option String) (dr : Bool) (dl : Option (List String))
    (mat : Option String) (p n : Int) (ls : Bool) (eng : Engine) (dg : DG)
    (eng1 : Engine) (dg1 : DG)
    (h : new_layer gs bnd label dr dl mat p n ls eng dg = .ok (eng1, dg1)) :
    dg1.first_layer = false := by
  unfold new_layer at h
  simp only [bind, Except.bind] at h
  generalize hed : (if ls = true
    then label_sides (batchOf gs) eng { dg with first_layer := false }
    else (eng, { dg with first_layer := false })) = ed0 at h
  have hfl0 : ed0.2.first_layer = false := by
    rw [← hed]
    by_cases hls : ls = true <;> simp [hls, label_sides_first_layer]
  cases hve : update_vol_entities
      ({ dg with first_layer := false } : DG).bottom_surface (batchOf gs)
      ed0.2.vol_entities with
  | error e =>
    simp only [hve] at h
    exact Except.noConfusion h
  | ok ve =>
    simp only [hve] at h
    split at h
    · exact Except.noConfusion h
    · rename_i ed2 heq2
      obtain ⟨hE, hD⟩ := Prod.mk.injEq _ _ _ _ |>.mp (Except.ok.inj h)
      subst hD
      have h1 := (update_dot_vol_proj _ _ _ _ _ _ _ _ _ ed2.1 ed2.2 heq2).1
      simp only at h1
      simp [store_mat_properties, h1, hfl0]

/-- C7: `setup_top_layer` fails with the sequencing `ValueError` whenever
it is invoked while `first_layer` is false, mutating neither the engine
nor the tracker state in that case; `new_layer` sets `first_layer` to
false, and consequently `new_dot_rectangle`, which reruns
`setup_top_layer`, also fails (propagating the same error and leaving the
dot counter untouched) whenever any 3D layer has already been built. -/
theorem C7_setup_top_layer_sequencing :
    (∀ (fo : List Ent) (fm : List (List Ent)) (eng : Engine) (dg : DG),
      dg.first_layer = false →
      setup_top_layer fo fm eng dg =
        (.error (.valueError "Must setup top layer before adding new layers"),
          eng, dg)) ∧
    (∀ (hq : Option ℚ) (fo : List Ent) (fm : List (List Ent)) (eng : Engine)
      (dg : DG), dg.first_layer = false →
      (new_dot_rectangle hq fo fm eng dg).1 =
        .error (.valueError "Must setup top layer before adding new layers") ∧
      (new_dot_rectangle hq fo fm eng dg).2.2.dot_counter = dg.dot_counter) ∧
    (∀ gs bnd label dr dl mat p n ls eng dg eng1 dg1,
      new_layer gs bnd label dr dl mat p n ls eng dg = .ok (eng1, dg1) →
      dg1.first_layer = false) := by
  refine ⟨fun fo fm eng dg hdg => setup_top_layer_err fo fm eng dg hdg,
    ?_, new_layer_first_layer⟩
  intro hq fo fm eng dg hdg
  cases hq with
  | none =>
    constructor <;>
      simp [new_dot_rectangle, setup_top_layer, hdg]
  | some hv =>
    constructor <;>
      simp [new_dot_rectangle, new_box_field, setup_top_layer, hdg]

theorem C7_witness :
    ({ DG.base with first_layer := false } : DG).first_layer = false ∧
    setup_top_layer [] [] Engine.base { DG.base with first_layer := false } =
      (.error (.valueError "Must setup top layer before adding new layers"),
        Engine.base, { DG.base with first_layer := false }) ∧
    (new_dot_rectangle none [] [] Engine.base
      { DG.base with first_layer := false }).1 =
      .error (.valueError "Must setup top layer before adding new layers") :=
  ⟨rfl,
   C7_setup_top_layer_sequencing.1 [] [] Engine.base _ rfl,
   (C7_setup_top_layer_sequencing.2.1 none [] [] Engine.base _ rfl).1⟩

/-! ## C10: the boundary-condition registry is untouched without a type -/

theorem update_vol_entity_keys_bnd (ent_tags : List Nat) (ol : PyStr)
    (nl : String) (eng : Engine) (dg : DG) :
    (update_vol_entity_keys ent_tags ol nl eng dg).2.bnd_dict =
      dg.bnd_dict := by
  unfold update_vol_entity_keys
  exact foldl_proj
    (fun (ed : Engine × DG) label =>
      (ed.1.removePhysicalName label,
        { ed.2 with vol_entities := dictPop ed.2.vol_entities label }))
    (fun ed => ed.2.bnd_dict) (fun s a => rfl) _ (eng, dg)

/-- C10: every labeling or relabeling entry point called with
`bnd_type = None` — `label_surface`, `label_bottom`, `new_top_layer`, and
`relabel_surface` — leaves the boundary-condition registry `bnd_dict`
completely unchanged: `store_bnd_conditions` is a no-op without a type. -/
theorem C10_bnd_dict_untouched_without_type :
    (∀ tags name params eng (dg : DG),
      (label_surface tags name none params eng dg).2.2.bnd_dict =
        dg.bnd_dict) ∧
    (∀ label params eng (dg : DG),
      (label_bottom label none params eng dg).2.2.bnd_dict = dg.bnd_dict) ∧
    (∀ gs ste lb mat p n bl params eng (dg : DG) r,
      new_top_layer gs ste lb mat p n bl none params eng dg = .ok r →
      r.2.bnd_dict = dg.bnd_dict) ∧
    (∀ ol nl params eng (dg : DG),
      (relabel_surface ol nl none params eng dg).2.2.bnd_dict =
        dg.bnd_dict) := by
  refine ⟨?_, ?_, ?_, ?_⟩
  · intro tags name params eng dg
    simp [label_surface, store_bnd_conditions]
  · intro label params eng dg
    unfold label_bottom
    split <;> simp [store_bnd_conditions]
  · intro gs ste lb mat p n bl params eng dg r h
    unfold new_top_layer at h
    simp only [bind, Except.bind] at h
    repeat' split at h
    all_goals
      first
      | exact Except.noConfusion h
      | (obtain rfl := Except.ok.inj h
         simp [label_volume, label_surface, store_bnd_conditions,
           store_mat_properties])
  · intro ol nl params eng dg
    cases nl with
    | none => rfl
    | some nl2 =>
      unfold relabel_surface
      cases hgt : get_tag_from_name eng ol 2 with
      | error e => simp
      | ok pt =>
        cases hge : get_ent_tag_from_name eng ol 2 with
        | error e => simp [store_bnd_conditions]
        | ok ents =>
          simp [store_bnd_conditions, update_vol_entity_keys_bnd]

theorem C10_witness :
    (label_surface [] "top" none [] Engine.base DG.base).2.2.bnd_dict =
      DG.base.bnd_dict ∧
    (label_bottom "bottom" none [] Engine.base
      { DG.base with first_layer := false }).2.2.bnd_dict =
      ({ DG.base with first_layer := false } : DG).bnd_dict ∧
    (relabel_surface (.l ["surf1"]) none none [] Engine.base
      DG.base).2.2.bnd_dict = DG.base.bnd_dict ∧
    (match new_top_layer [] none none none 0 0 "top" none []
        Engine.base DG.base with
      | .ok r => r.2.bnd_dict = DG.base.bnd_dict
      | .error _ => False) := by
  refine ⟨C10_bnd_dict_untouched_without_type.1 [] "top" [] Engine.base
      DG.base,
    C10_bnd_dict_untouched_without_type.2.1 "bottom" [] Engine.base _,
    C10_bnd_dict_untouched_without_type.2.2.2 (.l ["surf1"]) none []
      Engine.base DG.base, ?_⟩
  rcases heval : new_top_layer [] none none none 0 0 "top" none []
      Engine.base DG.base with e | r
  · have hok : (match new_top_layer [] none none none 0 0 "top" none []
        Engine.base DG.base with
      | .ok _ => true
      | .error _ => false) = true := by decide
    rw [heval] at hok
    exact absurd hok (by simp)
  · show r.2.bnd_dict = DG.base.bnd_dict
    exact C10_bnd_dict_untouched_without_type.2.2.1 [] none none none 0 0
      "top" [] Engine.base DG.base r heval

/-! ## C5: relabeling and the metadata registries -/

/-- C5: evidence at a concrete device.  Relabeling `surf1` to `gate` with
a boundary type leaves the stale `bnd_dict` entry for `surf1` in place
(the entry is copied to `gate`, not moved), and calling `relabel_surface`
with no new name aborts with the modelled `UnboundLocalError` (the source
reads the never-assigned local `ent_tags`), deleting no metadata. -/
theorem C5_relabel_metadata_not_moved :
    (relabel_surface (.s "surf1") (some "gate") (some "gate") [7] engC5
      dgC5).2.2.bnd_dict =
      [("surf1", ⟨"ohmic", [1]⟩), ("gate", ⟨"gate", [7]⟩)] ∧
    (relabel_surface (.s "surf1") none none [] engC5 dgC5).1 =
      .error .nameError ∧
    (relabel_surface (.s "surf1") none none [] engC5 dgC5).2.2 = dgC5 := by
  decide

/-! ## C4: `label_entity` and physical-group integrity -/

theorem nodup_groups_inj {groups : List (Nat × Nat × List Nat)}
    (hnd : (groups.map (fun g => g.2.1)).Nodup)
    {a b : Nat × Nat × List Nat} (ha : a ∈ groups) (hb : b ∈ groups)
    (hpt : a.2.1 = b.2.1) : a = b :=
  List.inj_on_of_nodup_map hnd ha hb hpt

theorem groups_find?_eq (groups : List (Nat × Nat × List Nat))
    (hnd : (groups.map (fun g => g.2.1)).Nodup)
    (g0 : Nat × Nat × List Nat) (hg : g0 ∈ groups) :
    groups.find? (fun g => g.1 = g0.1 ∧ g.2.1 = g0.2.1) = some g0 := by
  induction groups with
  | nil => simp at hg
  | cons a t ih =>
    rw [List.map_cons] at hnd
    have hnd' := List.nodup_cons.mp hnd
    rcases List.mem_cons.mp hg with rfl | hmem
    · exact List.find?_cons_of_pos _ (by simp)
    · have hane : ¬ (a.1 = g0.1 ∧ a.2.1 = g0.2.1) := by
        rintro ⟨_, hpt⟩
        have hm : g0.2.1 ∈ t.map (fun g => g.2.1) :=
          List.mem_map_of_mem _ hmem
        rw [← hpt] at hm
        exact hnd'.1 hm
      rw [List.find?_cons_of_neg _ (by simpa using hane)]
      exact ih hnd'.2 hmem

theorem gpfe_head {eng : Engine} {dim tag pt : Nat} {rest : List Nat}
    (h : eng.getPhysicalGroupsForEntity dim tag = pt :: rest) :
    ∃ g0, g0 ∈ eng.groups ∧ g0.1 = dim ∧ tag ∈ g0.2.2 ∧ g0.2.1 = pt := by
  unfold Engine.getPhysicalGroupsForEntity at h
  cases hf : eng.groups.filter (fun g => g.1 = dim ∧ tag ∈ g.2.2) with
  | nil => rw [hf] at h; simp at h
  | cons g0 t =>
    rw [hf] at h
    simp only [List.map_cons, List.cons.injEq] at h
    have hg0f : g0 ∈ eng.groups.filter (fun g => g.1 = dim ∧ tag ∈ g.2.2) := by
      rw [hf]; exact List.mem_cons_self g0 t
    have hmem := List.mem_of_mem_filter hg0f
    have hpred := List.of_mem_filter hg0f
    simp only [decide_eq_true_eq] at hpred
    exact ⟨g0, hmem, hpred.1, hpred.2, h.1⟩

theorem getPhysicalName_ne {eng : Engine} {dim pt : Nat} {nn : String}
    (hnn : nn ≠ "") (hA : ∀ nE ∈ eng.names, nE.2.2 ≠ nn) :
    eng.getPhysicalName dim pt ≠ nn := by
  unfold Engine.getPhysicalName
  cases hf : eng.names.find? (fun n => n.1 = dim ∧ n.2.1 = pt) with
  | none => exact fun hc => hnn hc.symm
  | some nE => exact hA nE (List.mem_of_find?_eq_some hf)

theorem removePhysicalGroups_WF (eng : Engine) (dts : List (Nat × Nat))
    (h : EngineWF eng) : EngineWF (eng.removePhysicalGroups dts) := by
  obtain ⟨h1, h2, h3, h4⟩ := h
  unfold Engine.removePhysicalGroups
  split
  · exact ⟨by simp, by simp, h3, h4⟩
  · refine ⟨?_, ?_, h3, h4⟩
    · exact List.Nodup.sublist (List.Sublist.map _ (List.filter_sublist _)) h1
    · intro g hg
      exact h2 g (List.mem_of_mem_filter hg)

theorem removePhysicalName_WF (eng : Engine) (s : String)
    (h : EngineWF eng) : EngineWF (eng.removePhysicalName s) := by
  obtain ⟨h1, h2, h3, h4⟩ := h
  refine ⟨h1, h2, ?_, ?_⟩
  · exact List.Nodup.sublist (List.Sublist.map _ (List.filter_sublist _)) h3
  · intro n hn
    exact h4 n (List.mem_of_mem_filter hn)

theorem addPhysicalGroup_WF (eng : Engine) (d : Nat) (ents : List Nat)
    (h : EngineWF eng) : EngineWF (eng.addPhysicalGroup d ents).2 := by
  obtain ⟨h1, h2, h3, h4⟩ := h
  refine ⟨?_, ?_, h3, ?_⟩
  · simp only [Engine.addPhysicalGroup, List.map_append, List.map_cons,
      List.map_nil]
    rw [List.nodup_append]
    refine ⟨h1, List.nodup_singleton _, ?_⟩
    intro a ha hb
    simp only [List.mem_singleton] at hb
    obtain ⟨g, hg, rfl⟩ := List.mem_map.mp ha
    have := h2 g hg
    omega
  · intro g hg
    simp only [Engine.addPhysicalGroup, List.mem_append,
      List.mem_singleton] at hg
    rcases hg with hg | rfl
    · exact Nat.lt_succ_of_lt (h2 g hg)
    · exact Nat.lt_succ_self _
  · intro n hn
    exact Nat.lt_succ_of_lt (h4 n hn)

theorem setPhysicalName_WF (eng : Engine) (d pt : Nat) (s : String)
    (h : EngineWF eng) (hpt : pt < eng.nextPtag) :
    EngineWF (eng.setPhysicalName d pt s) := by
  obtain ⟨h1, h2, h3, h4⟩ := h
  unfold Engine.setPhysicalName
  split
  · refine ⟨h1, h2, ?_, ?_⟩
    · have hkeys : (eng.names.map
          (fun n => if n.1 = d ∧ n.2.1 = pt then (d, pt, s) else n)).map
          (fun n => (n.1, n.2.1)) = eng.names.map (fun n => (n.1, n.2.1)) := by
        rw [List.map_map]
        apply List.map_congr_left
        intro n _
        by_cases hc : n.1 = d ∧ n.2.1 = pt
        · simp [hc, Function.comp, hc.1, hc.2]
        · simp [hc, Function.comp]
      rw [hkeys]
      exact h3
    · intro n hn
      obtain ⟨m, hm, rfl⟩ := List.mem_map.mp hn
      by_cases hc : m.1 = d ∧ m.2.1 = pt
      · simpa [hc] using hpt
      · simpa [hc] using h4 m hm
  · rename_i hany
    refine ⟨h1, h2, ?_, ?_⟩
    · simp only [List.map_append, List.map_cons, List.map_nil]
      rw [List.nodup_append]
      refine ⟨h3, List.nodup_singleton _, ?_⟩
      intro a ha hb
      simp only [List.mem_singleton] at hb
      obtain ⟨m, hm, rfl⟩ := List.mem_map.mp ha
      obtain ⟨hm1, hm2⟩ := Prod.mk.injEq _ _ _ _ |>.mp hb
      exact hany (List.any_eq_true.mpr ⟨m, hm, by simp [hm1, hm2]⟩)
    · intro n hn
      simp only [List.mem_append, List.mem_singleton] at hn
      rcases hn with hn | rfl
      · exact h4 n hn
      · exact hpt

theorem removePhysicalGroups_names (eng : Engine) (dts : List (Nat × Nat)) :
    (eng.removePhysicalGroups dts).names = eng.names := by
  unfold Engine.removePhysicalGroups
  split <;> rfl

theorem removePhysicalName_namesNeq {eng : Engine} {s nn : String}
    (hA : ∀ nE ∈ eng.names, nE.2.2 ≠ nn) :
    ∀ nE ∈ (eng.removePhysicalName s).names, nE.2.2 ≠ nn := by
  intro nE hn
  exact hA nE (List.mem_of_mem_filter hn)

theorem addPhysicalGroup_names (eng : Engine) (d : Nat) (ents : List Nat) :
    (eng.addPhysicalGroup d ents).2.names = eng.names := rfl

theorem setPhysicalName_namesNeq {eng : Engine} {d pt : Nat} {s nn : String}
    (hs : s ≠ nn) (hA : ∀ nE ∈ eng.names, nE.2.2 ≠ nn) :
    ∀ nE ∈ (eng.setPhysicalName d pt s).names, nE.2.2 ≠ nn := by
  intro nE hn
  unfold Engine.setPhysicalName at hn
  split at hn
  · simp only at hn
    obtain ⟨m, hm, rfl⟩ := List.mem_map.mp hn
    by_cases hc : m.1 = d ∧ m.2.1 = pt
    · simpa [hc] using hs
    · simpa [hc] using hA m hm
  · simp only at hn
    rcases List.mem_append.mp hn with hn | hn
    · exact hA nE hn
    · simp only [List.mem_singleton] at hn
      subst hn
      exact hs

theorem coveredBy_addPhysicalGroup {eng : Engine} {dim e : Nat} (d : Nat)
    (ents : List Nat) (h : coveredBy eng dim e = true) :
    coveredBy (eng.addPhysicalGroup d ents).2 dim e = true := by
  simp only [coveredBy, Engine.addPhysicalGroup, List.any_append] at h ⊢
  rw [h]
  rfl

theorem coveredBy_setPhysicalName (eng : Engine) (d pt : Nat) (s : String)
    (dim e : Nat) :
    coveredBy (eng.setPhysicalName d pt s) dim e = coveredBy eng dim e := by
  unfold Engine.setPhysicalName
  split <;> rfl

theorem coveredBy_new_group {eng : Engine} {dim e : Nat} (ents : List Nat)
    (he : e ∈ ents) :
    coveredBy (eng.addPhysicalGroup dim ents).2 dim e = true := by
  simp only [coveredBy, Engine.addPhysicalGroup, List.any_append,
    List.any_cons, List.any_nil]
  simp [he]

theorem coveredBy_iff {eng : Engine} {dim e : Nat} :
    coveredBy eng dim e = true ↔
      ∃ g ∈ eng.groups, g.1 = dim ∧ e ∈ g.2.2 := by
  unfold coveredBy
  rw [List.any_eq_true]
  constructor
  · rintro ⟨g, hg, hp⟩
    exact ⟨g, hg, by simpa using hp⟩
  · rintro ⟨g, hg, hp⟩
    exact ⟨g, hg, by simpa using hp⟩

theorem label_entity_step_spec (dim : Nat) (nn : String) (eng : Engine)
    (tag : Nat) (hWF : EngineWF eng) (hnn : nn ≠ "")
    (hA : ∀ nE ∈ eng.names, nE.2.2 ≠ nn) :
    EngineWF (label_entity_step dim nn eng tag) ∧
    (∀ nE ∈ (label_entity_step dim nn eng tag).names, nE.2.2 ≠ nn) ∧
    (∀ e, coveredBy eng dim e = true →
      coveredBy (label_entity_step dim nn eng tag) dim e = true ∨ e = tag) := by
  unfold label_entity_step
  cases hpt : eng.getPhysicalGroupsForEntity dim tag with
  | nil => exact ⟨hWF, hA, fun e he => Or.inl he⟩
  | cons pt rest =>
    dsimp only
    obtain ⟨g0, hg0mem, hg0dim, hg0tag, hg0pt⟩ := gpfe_head hpt
    have hents : eng.getEntitiesForPhysicalGroup dim pt = g0.2.2 := by
      unfold Engine.getEntitiesForPhysicalGroup
      have hfun : (fun (g : Nat × Nat × List Nat) =>
          decide (g.1 = dim ∧ g.2.1 = pt)) =
          (fun g => decide (g.1 = g0.1 ∧ g.2.1 = g0.2.1)) := by
        rw [hg0dim, hg0pt]
      rw [hfun, groups_find?_eq eng.groups hWF.1 g0 hg0mem]
    have hnamene : eng.getPhysicalName dim pt ≠ nn :=
      getPhysicalName_ne hnn hA
    rw [hents]
    have hW2 : EngineWF ((eng.removePhysicalGroups
        [(dim, pt)]).removePhysicalName (eng.getPhysicalName dim pt)) :=
      removePhysicalName_WF _ _ (removePhysicalGroups_WF _ _ hWF)
    have hA2 : ∀ nE ∈ ((eng.removePhysicalGroups
        [(dim, pt)]).removePhysicalName
          (eng.getPhysicalName dim pt)).names, nE.2.2 ≠ nn := by
      apply removePhysicalName_namesNeq
      rw [removePhysicalGroups_names]
      exact hA
    have hsurv : ∀ g ∈ eng.groups, g.2.1 ≠ pt →
        g ∈ ((eng.removePhysicalGroups
          [(dim, pt)]).removePhysicalName
            (eng.getPhysicalName dim pt)).groups := by
      intro g hg hne
      show g ∈ (eng.removePhysicalGroups [(dim, pt)]).groups
      unfold Engine.removePhysicalGroups
      rw [if_neg (by simp)]
      refine List.mem_filter.mpr ⟨hg, ?_⟩
      simp [hne]
    by_cases hbr : eng.getPhysicalName dim pt ≠ nn ∧ g0.2.2.erase tag ≠ []
    · rw [if_pos hbr]
      refine ⟨?_, ?_, ?_⟩
      · exact setPhysicalName_WF _ _ _ _ (addPhysicalGroup_WF _ _ _ hW2)
          (Nat.lt_succ_self _)
      · apply setPhysicalName_namesNeq hnamene
        rw [addPhysicalGroup_names]
        exact hA2
      · intro e he
        obtain ⟨g, hgmem, hgdim, hge⟩ := coveredBy_iff.mp he
        by_cases hgpt : g.2.1 = pt
        · have hgg0 : g = g0 :=
            nodup_groups_inj hWF.1 hgmem hg0mem (by rw [hgpt, hg0pt])
          by_cases hetag : e = tag
          · exact Or.inr hetag
          · left
            have he2 : e ∈ g0.2.2.erase tag :=
              (List.mem_erase_of_ne hetag).mpr (hgg0 ▸ hge)
            rw [coveredBy_setPhysicalName]
            exact coveredBy_new_group _ he2
        · left
          rw [coveredBy_setPhysicalName]
          apply coveredBy_addPhysicalGroup
          exact coveredBy_iff.mpr ⟨g, hsurv g hgmem hgpt, hgdim, hge⟩
    · rw [if_neg hbr]
      refine ⟨hW2, hA2, ?_⟩
      intro e he
      obtain ⟨g, hgmem, hgdim, hge⟩ := coveredBy_iff.mp he
      by_cases hgpt : g.2.1 = pt
      · have hgg0 : g = g0 :=
          nodup_groups_inj hWF.1 hgmem hg0mem (by rw [hgpt, hg0pt])
        by_cases hetag : e = tag
        · exact Or.inr hetag
        · exfalso
          have he2 : e ∈ g0.2.2.erase tag :=
            (List.mem_erase_of_ne hetag).mpr (hgg0 ▸ hge)
          exact hbr ⟨hnamene, List.ne_nil_of_mem he2⟩
      · left
        exact coveredBy_iff.mpr ⟨g, hsurv g hgmem hgpt, hgdim, hge⟩

theorem setPhysicalName_groups (eng : Engine) (d pt : Nat) (s : String) :
    (eng.setPhysicalName d pt s).groups = eng.groups := by
  unfold Engine.setPhysicalName
  split <;> rfl

theorem setPhysicalName_append {eng : Engine} {d pt : Nat} {s : String}
    (hfree : ∀ nE ∈ eng.names, ¬ (nE.1 = d ∧ nE.2.1 = pt)) :
    (eng.setPhysicalName d pt s).names = eng.names ++ [(d, pt, s)] := by
  unfold Engine.setPhysicalName
  rw [if_neg ?hc]
  case hc =>
    rw [List.any_eq_true]
    rintro ⟨n, hn, hp⟩
    exact hfree n hn (by simpa using hp)

theorem label_entity_fold_spec (dim : Nat) (nn : String) (hnn : nn ≠ "") :
    ∀ (tags : List Nat) (eng : Engine), EngineWF eng →
      (∀ nE ∈ eng.names, nE.2.2 ≠ nn) →
      ∀ e, coveredBy eng dim e = true →
        coveredBy (tags.foldl (label_entity_step dim nn) eng) dim e = true ∨
          e ∈ tags := by
  intro tags
  induction tags with
  | nil => intro eng _ _ e he; exact Or.inl he
  | cons a t ih =>
    intro eng hWF hA e he
    obtain ⟨W1, A1, C1⟩ := label_entity_step_spec dim nn eng a hWF hnn hA
    rw [List.foldl_cons]
    rcases C1 e he with h1 | rfl
    · rcases ih _ W1 A1 e h1 with h2 | h2
      · exact Or.inl h2
      · exact Or.inr (List.mem_cons_of_mem a h2)
    · exact Or.inr (List.mem_cons_self _ t)

theorem setPhysicalName_nextPtag (eng : Engine) (d pt : Nat) (s : String) :
    (eng.setPhysicalName d pt s).nextPtag = eng.nextPtag := by
  unfold Engine.setPhysicalName
  split <;> rfl

theorem label_entity_single_reregisters (dim tag : Nat) (nn : String)
    (eng : Engine) (g0 : Nat × Nat × List Nat)
    (t : List (Nat × Nat × List Nat)) (hWF : EngineWF eng)
    (hfil : eng.groups.filter (fun g => g.1 = dim ∧ tag ∈ g.2.2) = g0 :: t)
    (hname : eng.getPhysicalName dim g0.2.1 ≠ nn)
    (hrest : g0.2.2.erase tag ≠ []) :
    (dim, eng.nextPtag, g0.2.2.erase tag) ∈
        (label_entity dim [tag] nn eng).2.groups ∧
      (label_entity dim [tag] nn eng).2.getPhysicalName dim eng.nextPtag =
        eng.getPhysicalName dim g0.2.1 := by
  have hg0f : g0 ∈ eng.groups.filter (fun g => g.1 = dim ∧ tag ∈ g.2.2) := by
    rw [hfil]
    exact List.mem_cons_self g0 t
  have hg0mem := List.mem_of_mem_filter hg0f
  have hgpfe : eng.getPhysicalGroupsForEntity dim tag
      = g0.2.1 :: t.map (fun g => g.2.1) := by
    unfold Engine.getPhysicalGroupsForEntity
    rw [hfil, List.map_cons]
  have hents : eng.getEntitiesForPhysicalGroup dim g0.2.1 = g0.2.2 := by
    have hpred := List.of_mem_filter hg0f
    simp only [decide_eq_true_eq] at hpred
    unfold Engine.getEntitiesForPhysicalGroup
    have hfun : (fun (g : Nat × Nat × List Nat) =>
        decide (g.1 = dim ∧ g.2.1 = g0.2.1)) =
        (fun g => decide (g.1 = g0.1 ∧ g.2.1 = g0.2.1)) := by
      rw [hpred.1]
    rw [hfun, groups_find?_eq eng.groups hWF.1 g0 hg0mem]
  have hstep : label_entity_step dim nn eng tag =
      ((((eng.removePhysicalGroups [(dim, g0.2.1)]).removePhysicalName
          (eng.getPhysicalName dim g0.2.1)).addPhysicalGroup dim
          (g0.2.2.erase tag)).2).setPhysicalName dim eng.nextPtag
          (eng.getPhysicalName dim g0.2.1) := by
    unfold label_entity_step
    rw [hgpfe]
    dsimp only
    rw [hents]
    rw [if_pos ⟨hname, hrest⟩]
    rfl
  have hnames1 : ((eng.removePhysicalGroups
      [(dim, g0.2.1)]).removePhysicalName
      (eng.getPhysicalName dim g0.2.1)).names
      = eng.names.filter
          (fun n => n.2.2 ≠ eng.getPhysicalName dim g0.2.1) := by
    rw [show ((eng.removePhysicalGroups [(dim, g0.2.1)]).removePhysicalName
        (eng.getPhysicalName dim g0.2.1)).names
        = (eng.removePhysicalGroups [(dim, g0.2.1)]).names.filter
            (fun n => n.2.2 ≠ eng.getPhysicalName dim g0.2.1) from rfl,
      removePhysicalGroups_names]
  have hnp : (label_entity_step dim nn eng tag).nextPtag
      = eng.nextPtag + 1 := by
    rw [hstep, setPhysicalName_nextPtag]
    rfl
  have hS1names : (label_entity_step dim nn eng tag).names
      = eng.names.filter
          (fun n => n.2.2 ≠ eng.getPhysicalName dim g0.2.1)
        ++ [(dim, eng.nextPtag, eng.getPhysicalName dim g0.2.1)] := by
    rw [hstep]
    rw [setPhysicalName_append ?hfree]
    · rw [addPhysicalGroup_names, hnames1]
    case hfree =>
      intro nE hn
      rw [addPhysicalGroup_names, hnames1] at hn
      rintro ⟨-, hpt2⟩
      have hlt := hWF.2.2.2 nE (List.mem_of_mem_filter hn)
      omega
  have hS1groups : (label_entity_step dim nn eng tag).groups
      = (eng.removePhysicalGroups [(dim, g0.2.1)]).groups
        ++ [(dim, eng.nextPtag, g0.2.2.erase tag)] := by
    rw [hstep, setPhysicalName_groups]
    rfl
  have hfinalgroups : (label_entity dim [tag] nn eng).2.groups
      = (label_entity_step dim nn eng tag).groups
        ++ [(dim, eng.nextPtag + 1, [tag])] := by
    unfold label_entity
    dsimp only [List.foldl_cons, List.foldl_nil]
    rw [setPhysicalName_groups]
    show (label_entity_step dim nn eng tag).groups
        ++ [(dim, (label_entity_step dim nn eng tag).nextPtag, [tag])] = _
    rw [hnp]
  have hfinalnames : (label_entity dim [tag] nn eng).2.names
      = (label_entity_step dim nn eng tag).names
        ++ [(dim, eng.nextPtag + 1, nn)] := by
    unfold label_entity
    dsimp only [List.foldl_cons, List.foldl_nil]
    rw [setPhysicalName_append ?hfree2]
    · rw [show ((label_entity_step dim nn eng
          tag).addPhysicalGroup dim [tag]).2.names
          = (label_entity_step dim nn eng tag).names from rfl]
      rw [show ((label_entity_step dim nn eng
          tag).addPhysicalGroup dim [tag]).1
          = (label_entity_step dim nn eng tag).nextPtag from rfl, hnp]
    case hfree2 =>
      intro nE hn
      rw [addPhysicalGroup_names, hS1names] at hn
      rw [show ((label_entity_step dim nn eng
          tag).addPhysicalGroup dim [tag]).1
          = (label_entity_step dim nn eng tag).nextPtag from rfl, hnp]
      rintro ⟨-, hpt2⟩
      rcases List.mem_append.mp hn with hn1 | hn1
      · have hlt := hWF.2.2.2 nE (List.mem_of_mem_filter hn1)
        omega
      · simp only [List.mem_singleton] at hn1
        subst hn1
        simp at hpt2
  have hnone : (eng.names.filter
      (fun n => n.2.2 ≠ eng.getPhysicalName dim g0.2.1)).find?
      (fun n => n.1 = dim ∧ n.2.1 = eng.nextPtag) = none := by
    rw [List.find?_eq_none]
    intro n hn
    simp only [decide_eq_true_eq, not_and]
    intro _
    have hlt := hWF.2.2.2 n (List.mem_of_mem_filter hn)
    omega
  constructor
  · rw [hfinalgroups, hS1groups]
    simp
  · have hgpn : ∀ (E : Engine), E.names = (eng.names.filter
        (fun n => n.2.2 ≠ eng.getPhysicalName dim g0.2.1)
        ++ [(dim, eng.nextPtag, eng.getPhysicalName dim g0.2.1)])
        ++ [(dim, eng.nextPtag + 1, nn)] →
        E.getPhysicalName dim eng.nextPtag
          = eng.getPhysicalName dim g0.2.1 := by
      intro E hE
      unfold Engine.getPhysicalName
      rw [hE, List.find?_append, List.find?_append, hnone, Option.none_or,
        List.find?_cons_of_pos _ (by simp)]
      rfl
    exact hgpn _ (by rw [hfinalnames, hS1names])

/-- C4 (amended).  `label_entity(dim, tags, new_name)` with a non-empty
`new_name` not already bound as a physical name leaves no entity unnamed:
every entity covered by a physical group of dimension `dim` before the
call is still covered afterwards; and a tag owned by a group whose name
differs from `new_name` and which has further members gets those members
re-registered under a fresh physical tag that keeps the old name.  The
original claim's parenthetical is false: when the old name equals
`new_name` the surviving members are dropped without re-registration
(only a collision warning is printed), see the counterexample. -/
theorem C4_label_entity_reregistration :
    (∀ (dim : Nat) (tags : List Nat) (nn : String) (eng : Engine),
      EngineWF eng → nn ≠ "" → (∀ nE ∈ eng.names, nE.2.2 ≠ nn) →
      ∀ e, coveredBy eng dim e = true →
        coveredBy (label_entity dim tags nn eng).2 dim e = true) ∧
    (∀ (dim tag : Nat) (nn : String) (eng : Engine)
      (g0 : Nat × Nat × List Nat) (t : List (Nat × Nat × List Nat)),
      EngineWF eng →
      eng.groups.filter (fun g => g.1 = dim ∧ tag ∈ g.2.2) = g0 :: t →
      eng.getPhysicalName dim g0.2.1 ≠ nn →
      g0.2.2.erase tag ≠ [] →
      (dim, eng.nextPtag, g0.2.2.erase tag) ∈
          (label_entity dim [tag] nn eng).2.groups ∧
        (label_entity dim [tag] nn eng).2.getPhysicalName dim eng.nextPtag =
          eng.getPhysicalName dim g0.2.1) := by
  constructor
  · intro dim tags nn eng hWF hnn hA e he
    unfold label_entity
    dsimp only
    rw [coveredBy_setPhysicalName]
    rcases label_entity_fold_spec dim nn hnn tags eng hWF hA e he with h1 | h1
    · exact coveredBy_addPhysicalGroup _ _ h1
    · exact coveredBy_new_group _ h1
  · exact label_entity_single_reregisters

/-- C4 counterexample: in `engC4` the group `A = {1, 2}` covers entity 2;
relabeling entity 1 with `label_entity(2, [1], "A")` (the old name equal
to the new one) destroys the group and leaves entity 2 in no physical
group at all, contradicting the claim's "this holds ... including when
the old name equals newName". -/
theorem C4_counterexample :
    coveredBy engC4 2 2 = true ∧
      coveredBy (label_entity 2 [1] "A" engC4).2 2 2 = false := by
  decide

theorem C4_witness :
    (2, 2, [2]) ∈ (label_entity 2 [1] "B" engC4).2.groups ∧
      (label_entity 2 [1] "B" engC4).2.getPhysicalName 2 2 =
        engC4.getPhysicalName 2 1 :=
  C4_label_entity_reregistration.2 2 1 "B" engC4 (2, 1, [1, 2]) []
    (by decide) (by decide) (by decide) (by decide)

/-! ## C1: lineage shape of `vol_entities` under repeated `new_layer` -/

theorem update_vol_entities_eq_mapM (b e : List Ent)
    (ve : List (String × List (List Ent))) :
    update_vol_entities b e ve = ve.mapM (update_vol_entry b e) := rfl

theorem mapM_ok_mem {α β : Type} {f : α → Except Err β} :
    ∀ {l : List α} {l' : List β}, l.mapM f = .ok l' →
      ∀ {P : β → Prop}, (∀ x ∈ l, ∀ y, f x = .ok y → P y) →
      ∀ y ∈ l', P y := by
  intro l
  induction l with
  | nil =>
    intro l' h P _ y hy
    have h2 : (pure [] : Except Err (List β)) = .ok l' := h
    have h3 : ([] : List β) = l' := Except.ok.inj h2
    rw [← h3] at hy
    simp at hy
  | cons a t ih =>
    intro l' h P hP y hy
    rw [List.mapM_cons] at h
    cases hfa : f a with
    | error e =>
      rw [hfa] at h
      exact Except.noConfusion h
    | ok b0 =>
      rw [hfa] at h
      have h3 : (t.mapM f >>= fun ys => pure (b0 :: ys)) = .ok l' := h
      cases hts : t.mapM f with
      | error e =>
        rw [hts] at h3
        exact Except.noConfusion h3
      | ok ys =>
        rw [hts] at h3
        have h4 : (pure (b0 :: ys) : Except Err (List β)) = .ok l' := h3
        have h5 : b0 :: ys = l' := Except.ok.inj h4
        rw [← h5] at hy
        rcases List.mem_cons.mp hy with rfl | hmem
        · exact hP a (List.mem_cons_self a t) y hfa
        · exact ih hts (fun x hx => hP x (List.mem_cons_of_mem a hx)) y hmem

theorem update_vol_entry_spec (gs : List ExtrGroup) (bottom : List Ent)
    (hlen : gs.length = bottom.length)
    (hnd : (gs.map ExtrGroup.vol).Nodup)
    (kv : String × List (List Ent)) (hne : kv.2 ≠ [])
    (hsub : ∀ e ∈ kv.2.getLastD [], e ∈ bottom) :
    ∃ vl ns,
      update_vol_entry bottom (batchOf gs) kv
        = .ok (kv.1, (kv.2 ++ [vl]) ++ [ns]) ∧
      vl.length = (kv.2.getLastD []).length ∧
      ns.length = vl.length ∧
      (∀ e ∈ vl, e.1 = 3) ∧
      (∀ e ∈ ns, e ∈ gs.map (fun g => ((2 : Nat), g.top))) := by
  cases hlast : kv.2.getLast? with
  | none => exact absurd (List.getLast?_eq_none_iff.mp hlast) hne
  | some s =>
    have hsD : kv.2.getLastD [] = s := by
      rw [List.getLastD_eq_getLast?, hlast]
      rfl
    rw [hsD] at hsub
    have hf1 : ∀ x ∈ s, ∃ y,
        (fun s0 =>
          match pyIndex bottom s0 with
          | some i =>
            match ((batchOf gs).filter (fun e => e.1 = 3)).get? i with
            | some v => Except.ok v
            | none => Except.error Err.indexError
          | none => Except.error (Err.valueError "not in list")
          : Ent → Except Err Ent) x = .ok y ∧
        ∃ g ∈ gs, y = (3, g.vol) := by
      intro x hx
      obtain ⟨i, hi⟩ := pyIndex_of_mem (hsub x hx)
      have hilt : i < gs.length := by
        have := pyIndex_lt_length hi
        omega
      obtain ⟨g, hg⟩ : ∃ g, gs.get? i = some g := ⟨_, List.get?_eq_get hilt⟩
      have hvget : ((batchOf gs).filter (fun e => e.1 = 3)).get? i
          = some (3, g.vol) := by
        rw [filter3_batchOf, List.get?_map, hg]
        rfl
      refine ⟨(3, g.vol), ?_, g, List.get?_mem hg, rfl⟩
      simp only [hi, hvget]
    obtain ⟨vl, hvl, hvlen, _⟩ := mapM_ok_spec _ s
      (fun x hx => (hf1 x hx).imp (fun y hy => hy.1))
    have hvlmem : ∀ y ∈ vl, ∃ g ∈ gs, y = (3, g.vol) :=
      mapM_ok_mem hvl (fun x hx y hy =>
        (by
          obtain ⟨y', hy', hp⟩ := hf1 x hx
          obtain rfl := Except.ok.inj (hy'.symm.trans hy)
          exact hp))
    have hf2 : ∀ v ∈ vl, ∃ y,
        (fun v0 =>
          match pyIndex (batchOf gs) v0 with
          | some i =>
            match pyGetElem? (batchOf gs) ((i : Int) - 1) with
            | some e => Except.ok e
            | none => Except.error Err.indexError
          | none => Except.error (Err.valueError "not in list")
          : Ent → Except Err Ent) v = .ok y ∧
        y ∈ gs.map (fun g => ((2 : Nat), g.top)) := by
      intro v hv
      obtain ⟨g, hg, rfl⟩ := hvlmem v hv
      obtain ⟨j, hj⟩ := List.mem_iff_get?.mp hg
      obtain ⟨n, hn, _, hprev, _⟩ := batch_locate hj hnd
      refine ⟨(2, g.top), ?_, List.mem_map.mpr ⟨g, hg, rfl⟩⟩
      simp only [hn, hprev]
    obtain ⟨ns, hns, hnslen, _⟩ := mapM_ok_spec _ vl
      (fun x hx => (hf2 x hx).imp (fun y hy => hy.1))
    have hnsmem : ∀ y ∈ ns, y ∈ gs.map (fun g => ((2 : Nat), g.top)) :=
      mapM_ok_mem hns (fun x hx y hy =>
        (by
          obtain ⟨y', hy', hp⟩ := hf2 x hx
          obtain rfl := Except.ok.inj (hy'.symm.trans hy)
          exact hp))
    refine ⟨vl, ns, ?_, by rw [hsD, hvlen], hnslen, ?_, hnsmem⟩
    · unfold update_vol_entry
      rw [hlast]
      simp only [bind, Except.bind]
      simp only [hvl, hns]
      rfl
    · intro e he
      obtain ⟨g, _, rfl⟩ := hvlmem e he
      rfl

theorem framesInv_extend {bottom newBottom : List Ent} {N : Nat}
    {frames : List (List Ent)} {vl ns : List Ent}
    (hinv : framesInv bottom N frames)
    (hvlen : vl.length = (frames.getLastD []).length)
    (hnslen : ns.length = vl.length)
    (hvdim : ∀ e ∈ vl, e.1 = 3)
    (hnsdim : ∀ e ∈ ns, e.1 = 2)
    (hns : ∀ e ∈ ns, e ∈ newBottom) :
    framesInv newBottom (N + 1) ((frames ++ [vl]) ++ [ns]) := by
  obtain ⟨hL, hdim, hcons, _⟩ := hinv
  have hshape : (frames ++ [vl]) ++ [ns] = frames ++ [vl, ns] := by
    simp
  have hget : ∀ i, i < frames.length →
      (frames ++ [vl, ns]).getD i [] = frames.getD i [] := fun i hi =>
    List.getD_append _ _ _ _ hi
  have hgetv : (frames ++ [vl, ns]).getD frames.length [] = vl := by
    rw [List.getD_append_right _ _ _ _ (Nat.le_refl _), Nat.sub_self]
    rfl
  have hgetn : (frames ++ [vl, ns]).getD (frames.length + 1) [] = ns := by
    rw [List.getD_append_right _ _ _ _ (Nat.le_succ_of_le (Nat.le_refl _)),
      show frames.length.succ - frames.length = 1 by omega]
    rfl
  have hlastf : frames.getLastD [] = frames.getD (frames.length - 1) [] := by
    simp [List.getLastD_eq_getLast?, List.getLast?_eq_get?,
      List.getD_eq_getD_get?]
  rw [hshape]
  refine ⟨?_, ?_, ?_, ?_⟩
  · simp only [List.length_append, List.length_cons, List.length_nil, hL]
    omega
  · intro i hi e he
    simp only [List.length_append, List.length_cons, List.length_nil] at hi
    rcases Nat.lt_trichotomy i frames.length with h1 | h1 | h1
    · rw [hget i h1] at he
      exact hdim i (by omega) e he
    · subst h1
      rw [hgetv] at he
      rw [if_neg (by omega)]
      exact hvdim e he
    · have h2 : i = frames.length + 1 := by omega
      subst h2
      rw [hgetn] at he
      rw [if_pos (by omega)]
      exact hnsdim e he
  · intro i hi hi1
    simp only [List.length_append, List.length_cons, List.length_nil]
      at hi hi1
    rcases Nat.lt_trichotomy (i + 1) frames.length with h1 | h1 | h1
    · rw [hget i (by omega), hget (i + 1) h1]
      exact hcons i (by omega) h1
    · rw [hget i (by omega), h1, hgetv]
      have h3 : frames.length - 1 = i := by omega
      rw [hvlen, hlastf, h3]
    · have h2 : i = frames.length := by omega
      subst h2
      rw [hgetv, hgetn]
      exact hnslen
  · rw [show frames ++ [vl, ns] = (frames ++ [vl]) ++ [ns] from by simp,
      List.getLastD_concat]
    exact hns

theorem new_layer_frames_step (gs : List ExtrGroup) (bnd : Ent → List Ent)
    (eng : Engine) (dg : DG) (N : Nat)
    (hdot : dg.dot_tag = [])
    (hlen : gs.length = dg.bottom_surface.length)
    (hnd : (gs.map ExtrGroup.vol).Nodup)
    (hinv : ∀ kv ∈ dg.vol_entities, framesInv dg.bottom_surface N kv.2) :
    ∃ eng' dg', new_layer gs bnd none false none none 0 0 false eng dg
        = .ok (eng', dg') ∧
      dg'.dot_tag = [] ∧
      dg'.bottom_surface = gs.map (fun g => ((2 : Nat), g.top)) ∧
      dg'.vol_entities.map Prod.fst = dg.vol_entities.map Prod.fst ∧
      ∀ kv ∈ dg'.vol_entities,
        framesInv (gs.map (fun g => ((2 : Nat), g.top))) (N + 1) kv.2 := by
  have hne : ∀ kv ∈ dg.vol_entities, kv.2 ≠ [] := by
    intro kv hkv h0
    have h1 := (hinv kv hkv).1
    rw [h0] at h1
    simp only [List.length_nil] at h1
    omega
  have hsub : ∀ kv ∈ dg.vol_entities, ∀ e ∈ kv.2.getLastD [],
      e ∈ dg.bottom_surface := fun kv hkv => (hinv kv hkv).2.2.2
  obtain ⟨ve', hve, hvelen, hvq⟩ :=
    mapM_ok_spec (update_vol_entry dg.bottom_surface (batchOf gs))
      dg.vol_entities (fun kv hkv => by
        obtain ⟨vl, ns, hok, -⟩ := update_vol_entry_spec gs dg.bottom_surface
          hlen hnd kv (hne kv hkv) (hsub kv hkv)
        exact ⟨_, hok⟩)
  have hveq : update_vol_entities dg.bottom_surface (batchOf gs)
      dg.vol_entities = .ok ve' := by
    rw [update_vol_entities_eq_mapM]
    exact hve
  have hchar : ∀ q kv, dg.vol_entities.get? q = some kv →
      ∃ vl ns, ve'.get? q = some (kv.1, (kv.2 ++ [vl]) ++ [ns]) ∧
        vl.length = (kv.2.getLastD []).length ∧
        ns.length = vl.length ∧
        (∀ e ∈ vl, e.1 = 3) ∧
        (∀ e ∈ ns, e ∈ gs.map (fun g => ((2 : Nat), g.top))) := by
    intro q kv hq
    have hkv := List.get?_mem hq
    obtain ⟨y, hy, hq'⟩ := hvq q kv hq
    obtain ⟨vl, ns, hok, h1, h2, h3, h4⟩ := update_vol_entry_spec gs
      dg.bottom_surface hlen hnd kv (hne kv hkv) (hsub kv hkv)
    obtain rfl := Except.ok.inj (hok.symm.trans hy)
    exact ⟨vl, ns, hq', h1, h2, h3, h4⟩
  obtain ⟨⟨eng1, dg1⟩, hrun⟩ : ∃ p, new_layer gs bnd none false none none
      0 0 false eng dg = .ok p := by
    unfold new_layer
    simp only [bind, Except.bind, Bool.false_eq_true, if_false]
    rw [hveq]
    simp only [update_dot_vol, hdot, List.length_nil, List.range_zero,
      List.foldlM_nil]
    exact ⟨_, rfl⟩
  have hrun2 := hrun
  unfold new_layer at hrun2
  simp only [bind, Except.bind, Bool.false_eq_true, if_false] at hrun2
  rw [hveq] at hrun2
  simp only [update_dot_vol, hdot, List.length_nil, List.range_zero,
    List.foldlM_nil, pure, Except.pure] at hrun2
  obtain ⟨hE, hD⟩ := Prod.mk.injEq _ _ _ _ |>.mp (Except.ok.inj hrun2)
  subst hD
  refine ⟨eng1, _, hrun, ?_, ?_, ?_, ?_⟩
  · rfl
  · exact track_surface_batch gs hnd
  · show ve'.map Prod.fst = dg.vol_entities.map Prod.fst
    apply List.ext_get?
    intro q
    rw [List.get?_map, List.get?_map]
    cases hq : dg.vol_entities.get? q with
    | none =>
      have h2 : ve'.get? q = none := List.get?_eq_none.mpr
        (by rw [hvelen]; exact List.get?_eq_none.mp hq)
      rw [h2]
    | some kv =>
      obtain ⟨vl, ns, hq', -⟩ := hchar q kv hq
      rw [hq']
      rfl
  · intro kv hkv
    have hkv2 : kv ∈ ve' := hkv
    obtain ⟨q, hq⟩ := List.mem_iff_get?.mp hkv2
    have hqlt : q < dg.vol_entities.length := by
      have h3 := (List.get?_eq_some.mp hq).1
      omega
    obtain ⟨kv0, hq0⟩ : ∃ kv0, dg.vol_entities.get? q = some kv0 :=
      ⟨_, List.get?_eq_get hqlt⟩
    obtain ⟨vl, ns, hq', h1, h2, h3, h4⟩ := hchar q kv0 hq0
    obtain rfl := Option.some.inj (hq'.symm.trans hq)
    exact framesInv_extend (hinv kv0 (List.get?_mem hq0)) h1 h2 h3
      (fun e he => by
        obtain ⟨g, -, rfl⟩ := List.mem_map.mp (h4 e he)
        rfl)
      h4

theorem new_layers_frames (bnd : Ent → List Ent) (L : Nat) :
    ∀ (batches : List (List ExtrGroup)) (N : Nat) (eng : Engine) (dg : DG),
      dg.dot_tag = [] →
      dg.bottom_surface.length = L →
      (∀ gs ∈ batches, gs.length = L ∧ (gs.map ExtrGroup.vol).Nodup) →
      (∀ kv ∈ dg.vol_entities, framesInv dg.bottom_surface N kv.2) →
      ∃ eng' dg', new_layers batches bnd eng dg = .ok (eng', dg') ∧
        dg'.dot_tag = [] ∧
        dg'.bottom_surface.length = L ∧
        dg'.vol_entities.map Prod.fst = dg.vol_entities.map Prod.fst ∧
        ∀ kv ∈ dg'.vol_entities,
          framesInv dg'.bottom_surface (N + batches.length) kv.2 := by
  intro batches
  induction batches with
  | nil =>
    intro N eng dg hdot hblen hb hinv
    exact ⟨eng, dg, rfl, hdot, hblen, rfl, by simpa using hinv⟩
  | cons gs bs ih =>
    intro N eng dg hdot hblen hb hinv
    have hgs := hb gs (List.mem_cons_self gs bs)
    obtain ⟨eng1, dg1, hok1, hdot1, hbot1, hfst1, hinv1⟩ :=
      new_layer_frames_step gs bnd eng dg N hdot
        (by rw [hblen]; exact hgs.1) hgs.2 hinv
    have hblen1 : dg1.bottom_surface.length = L := by
      rw [hbot1, List.length_map]
      exact hgs.1
    have hinv1' : ∀ kv ∈ dg1.vol_entities,
        framesInv dg1.bottom_surface (N + 1) kv.2 := by
      rw [hbot1]
      exact hinv1
    obtain ⟨eng', dg', hok, hdot', hblen', hfst', hinv'⟩ :=
      ih (N + 1) eng1 dg1 hdot1 hblen1
        (fun g hg => hb g (List.mem_cons_of_mem gs hg)) hinv1'
    refine ⟨eng', dg', ?_, hdot', hblen', hfst'.trans hfst1, ?_⟩
    · have hstep : new_layers (gs :: bs) bnd eng dg
          = new_layers bs bnd eng1 dg1 := by
        show (new_layer gs bnd none false none none 0 0 false eng dg >>=
          fun ed => new_layers bs bnd ed.1 ed.2) = new_layers bs bnd eng1 dg1
        rw [hok1]
        rfl
      rw [hstep]
      exact hok
    · intro kv hkv
      have h2 := hinv' kv hkv
      have h3 : N + 1 + bs.length = N + (gs :: bs).length := by
        simp [List.length_cons]
        omega
      rw [h3] at h2
      exact h2

/-- C1: starting from a device whose tracked regions each hold a single
surface frame drawn from the current bottom surfaces (and with no tracked
dots), `N` sequential `new_layer` calls succeed and leave every region
present before the first call with a lineage of exactly `2N+1` frames:
`N+1` surface frames (even positions, dimension 2) alternating with `N`
volume frames (odd positions, dimension 3), each volume frame with exactly
as many entries as the surface frame it was extruded from, and the final
surface frame drawn from the new bottom surfaces; the set of tracked
region names is unchanged.  The extrusion batches are assumed to carry one
group per bottom surface with pairwise distinct volumes. -/
theorem C1_vol_entities_lineage :
    ∀ (batches : List (List ExtrGroup)) (bnd : Ent → List Ent) (L : Nat)
      (eng : Engine) (dg : DG),
      dg.dot_tag = [] →
      dg.bottom_surface.length = L →
      (∀ gs ∈ batches, gs.length = L ∧ (gs.map ExtrGroup.vol).Nodup) →
      (∀ kv ∈ dg.vol_entities, framesInv dg.bottom_surface 0 kv.2) →
      ∃ eng' dg', new_layers batches bnd eng dg = .ok (eng', dg') ∧
        dg'.vol_entities.map Prod.fst = dg.vol_entities.map Prod.fst ∧
        ∀ kv ∈ dg'.vol_entities,
          framesInv dg'.bottom_surface batches.length kv.2 := by
  intro batches bnd L eng dg hdot hblen hb hinv
  obtain ⟨eng', dg', hok, -, -, hfst, hinv'⟩ :=
    new_layers_frames bnd L batches 0 eng dg hdot hblen hb hinv
  exact ⟨eng', dg', hok, hfst, by simpa using hinv'⟩

theorem C1_witness :
    ∃ eng' dg', new_layers [[⟨2, 10, []⟩], [⟨3, 11, []⟩]] (fun _ => [])
        Engine.base
        { DG.base with
            bottom_surface := [(2, 1)]
            vol_entities := [("gate", [[(2, 1)]])] } = .ok (eng', dg') ∧
      dg'.vol_entities.map Prod.fst = ["gate"] ∧
      ∀ kv ∈ dg'.vol_entities, framesInv dg'.bottom_surface 2 kv.2 := by
  obtain ⟨eng', dg', hok, hfst, hinv⟩ := C1_vol_entities_lineage
    [[⟨2, 10, []⟩], [⟨3, 11, []⟩]] (fun _ => []) 1 Engine.base
    { DG.base with
        bottom_surface := [(2, 1)]
        vol_entities := [("gate", [[(2, 1)]])] }
    rfl rfl (by decide) (by decide)
  exact ⟨eng', dg', hok, by rw [hfst]; rfl, hinv⟩

/-! ## C6: dot columns, adjacency selection and disjointness -/

theorem dot_vol_indices_foldl (bnd : Ent → List Ent) (extr : List Ent)
    (db : List Nat) (l : List Ent) :
    ∀ init : List Nat,
      l.foldl (fun acc v =>
        if (db.map (fun t => ((2 : Nat), t))).any (fun s => s ∈ bnd v) then
          match pyIndex extr v with
          | some ix => acc ++ [ix]
          | none => acc
        else acc) init
      = init ++ (l.filter (fun v =>
          (db.map (fun t => ((2 : Nat), t))).any (fun s => s ∈ bnd v))).flatMap
            (fun v => (pyIndex extr v).toList) := by
  induction l with
  | nil => intro init; simp
  | cons a t ih =>
    intro init
    rw [List.foldl_cons]
    by_cases hc : ((db.map (fun t => ((2 : Nat), t))).any
        (fun s => s ∈ bnd a)) = true
    · rw [List.filter_cons_of_pos (by simpa using hc), if_pos hc]
      cases hpi : pyIndex extr a with
      | none =>
        rw [ih init, List.flatMap_cons, hpi]
        rfl
      | some ix =>
        rw [ih (init ++ [ix]), List.flatMap_cons, hpi]
        simp
    · rw [List.filter_cons_of_neg (by simpa using hc), if_neg hc]
      exact ih init

theorem dot_vol_indices_eq (bnd : Ent → List Ent) (gs : List ExtrGroup)
    (db : List Nat) :
    dot_vol_indices bnd (batchOf gs) db
      = ((adjacentGroups bnd db gs).map
          (fun g => ((3 : Nat), g.vol))).flatMap
            (fun v => (pyIndex (batchOf gs) v).toList) := by
  unfold dot_vol_indices
  rw [dot_vol_indices_foldl, filter3_batchOf, List.filter_map]
  simp only [List.nil_append]
  rfl

theorem dot_indices_mapM_below (bnd : Ent → List Ent) (gs : List ExtrGroup)
    (db : List Nat) (hnd : (gs.map ExtrGroup.vol).Nodup) :
    ∀ (adj : List ExtrGroup), (∀ g ∈ adj, g ∈ gs) →
      ((adj.map (fun g => ((3 : Nat), g.vol))).flatMap
          (fun v => (pyIndex (batchOf gs) v).toList)).mapM
        (fun (ix : Nat) =>
          match pyGetElem? (batchOf gs) ((ix : Int) - 1) with
          | some e => Except.ok e.2
          | none => Except.error Err.indexError)
      = .ok (adj.map ExtrGroup.top) := by
  intro adj
  induction adj with
  | nil => intro _; rfl
  | cons g t ih =>
    intro hsub
    obtain ⟨j, hj⟩ := List.mem_iff_get?.mp (hsub g (List.mem_cons_self g t))
    obtain ⟨n, hn, -, hprev, -⟩ := batch_locate hj hnd
    simp only [List.map_cons, List.flatMap_cons, hn, Option.toList_some,
      List.singleton_append, List.mapM_cons, hprev]
    rw [ih (fun x hx => hsub x (List.mem_cons_of_mem g hx))]
    rfl

theorem dot_indices_mapM_vols (bnd : Ent → List Ent) (gs : List ExtrGroup)
    (db : List Nat) (hnd : (gs.map ExtrGroup.vol).Nodup) :
    ∀ (adj : List ExtrGroup), (∀ g ∈ adj, g ∈ gs) →
      ((adj.map (fun g => ((3 : Nat), g.vol))).flatMap
          (fun v => (pyIndex (batchOf gs) v).toList)).mapM
        (fun ix =>
          match (batchOf gs).get? ix with
          | some e => Except.ok e.2
          | none => Except.error Err.indexError)
      = .ok (adj.map ExtrGroup.vol) := by
  intro adj
  induction adj with
  | nil => intro _; rfl
  | cons g t ih =>
    intro hsub
    obtain ⟨j, hj⟩ := List.mem_iff_get?.mp (hsub g (List.mem_cons_self g t))
    obtain ⟨n, hn, -, -, hval⟩ := batch_locate hj hnd
    simp only [List.map_cons, List.flatMap_cons, hn, Option.toList_some,
      List.singleton_append, List.mapM_cons, hval]
    rw [ih (fun x hx => hsub x (List.mem_cons_of_mem g hx))]
    rfl

theorem update_dot_vol_step_spec (bnd : Ent → List Ent) (gs : List ExtrGroup)
    (mat : Option String) (p n : Int) (eng : Engine) (dg : DG) (i : Nat)
    (dot : List (List Nat)) (db : List Nat)
    (hnd : (gs.map ExtrGroup.vol).Nodup)
    (hdot : dg.dot_tag.get? i = some dot)
    (hlast : dot.getLast? = some db) :
    update_dot_vol_step bnd (batchOf gs) true none mat p n (eng, dg) i
      = .ok
        (((eng.addPhysicalGroup 3
            ((adjacentGroups bnd db gs).map ExtrGroup.vol)).2).setPhysicalName 3
          (eng.addPhysicalGroup 3
            ((adjacentGroups bnd db gs).map ExtrGroup.vol)).1
          ("dot" ++ toString i ++ "-" ++ toString dg.layer_counter),
         store_mat_properties
           ("dot" ++ toString i ++ "-" ++ toString dg.layer_counter)
           mat p n
           { dg with
              dot_tag := dg.dot_tag.set i
                (dot ++ [(adjacentGroups bnd db gs).map ExtrGroup.top])
              dot_volume := dg.dot_volume.set i
                (((dg.dot_volume.get? i).getD []) ++
                  [(adjacentGroups bnd db gs).map ExtrGroup.vol]) }) := by
  have hsubadj : ∀ g ∈ adjacentGroups bnd db gs, g ∈ gs := fun g hg =>
    List.mem_of_mem_filter hg
  unfold update_dot_vol_step
  simp only [bind, Except.bind, hdot, Option.getD_some, hlast]
  rw [dot_vol_indices_eq, dot_indices_mapM_below bnd gs db hnd _ hsubadj]
  rw [dot_indices_mapM_vols bnd gs db hnd _ hsubadj]
  rfl

theorem update_dot_vol_single (bnd : Ent → List Ent) (gs : List ExtrGroup)
    (mat : Option String) (p n : Int) (eng : Engine) (dgX : DG)
    (dot : List (List Nat)) (db : List Nat) (dv : List (List Nat))
    (hnd : (gs.map ExtrGroup.vol).Nodup)
    (hdtag : dgX.dot_tag = [dot])
    (hdvol : dgX.dot_volume = [dv])
    (hlast : dot.getLast? = some db) :
    update_dot_vol bnd (batchOf gs) true none mat p n eng dgX
      = .ok
        (((eng.addPhysicalGroup 3
            ((adjacentGroups bnd db gs).map ExtrGroup.vol)).2).setPhysicalName 3
          (eng.addPhysicalGroup 3
            ((adjacentGroups bnd db gs).map ExtrGroup.vol)).1
          ("dot" ++ toString 0 ++ "-" ++ toString dgX.layer_counter),
         store_mat_properties
           ("dot" ++ toString 0 ++ "-" ++ toString dgX.layer_counter)
           mat p n
           { dgX with
              dot_tag := [dot ++
                [(adjacentGroups bnd db gs).map ExtrGroup.top]]
              dot_volume := [dv ++
                [(adjacentGroups bnd db gs).map ExtrGroup.vol]] }) := by
  have hstep := update_dot_vol_step_spec bnd gs mat p n eng dgX 0 dot db hnd
    (by rw [hdtag]; rfl) hlast
  unfold update_dot_vol
  rw [hdtag, show List.range [dot].length = [0] from rfl]
  show (update_dot_vol_step bnd (batchOf gs) true none mat p n (eng, dgX) 0 >>=
    fun ed => (pure ed : Except Err (Engine × DG))) = _
  rw [hstep, hdtag, hdvol]
  rfl

theorem new_layer_dot_step (gs : List ExtrGroup) (bnd : Ent → List Ent)
    (eng : Engine) (dg : DG) (dot : List (List Nat)) (db : List Nat)
    (dv : List (List Nat))
    (hnd : (gs.map ExtrGroup.vol).Nodup)
    (hve : dg.vol_entities = [])
    (hdtag : dg.dot_tag = [dot])
    (hdvol : dg.dot_volume = [dv])
    (hlast : dot.getLast? = some db) :
    ∃ eng' dg', new_layer gs bnd none true none none 0 0 false eng dg
        = .ok (eng', dg') ∧
      dg'.vol_entities = [] ∧
      dg'.dot_tag = [dot ++ [(adjacentGroups bnd db gs).map ExtrGroup.top]] ∧
      dg'.dot_volume
        = [dv ++ [(adjacentGroups bnd db gs).map ExtrGroup.vol]] ∧
      ∃ pg vols, (3, pg, vols) ∈ eng'.groups ∧
        (∀ v ∈ vols, v ∈ gs.map ExtrGroup.vol ∧
          v ∉ (dv ++ [(adjacentGroups bnd db gs).map
            ExtrGroup.vol]).flatMap id) ∧
        (∀ v ∈ gs.map ExtrGroup.vol,
          v ∉ (dv ++ [(adjacentGroups bnd db gs).map
            ExtrGroup.vol]).flatMap id → v ∈ vols) := by
  obtain ⟨⟨eng1, dg1⟩, hrun⟩ : ∃ ed, new_layer gs bnd none true none none
      0 0 false eng dg = .ok ed := by
    unfold new_layer
    simp only [bind, Except.bind, Bool.false_eq_true, if_false, hve]
    rw [show update_vol_entities dg.bottom_surface (batchOf gs) [] = .ok []
      from rfl]
    dsimp only
    rw [update_dot_vol_single bnd gs none 0 0 eng _ dot db dv hnd ?h1 ?h2
      hlast]
    · exact ⟨_, rfl⟩
    case h1 => exact hdtag
    case h2 => exact hdvol
  have hrun2 := hrun
  unfold new_layer at hrun2
  simp only [bind, Except.bind, Bool.false_eq_true, if_false, hve] at hrun2
  rw [show update_vol_entities dg.bottom_surface (batchOf gs) [] = .ok []
    from rfl] at hrun2
  dsimp only at hrun2
  rw [update_dot_vol_single bnd gs none 0 0 eng _ dot db dv hnd ?h3 ?h4
    hlast] at hrun2
  dsimp only at hrun2
  case h3 => exact hdtag
  case h4 => exact hdvol
  obtain ⟨hE, hD⟩ := Prod.mk.injEq _ _ _ _ |>.mp (Except.ok.inj hrun2)
  subst hD
  subst hE
  refine ⟨_, _, hrun, rfl, rfl, rfl, ?_⟩
  simp only [store_mat_properties]
  simp only [List.flatMap_cons, List.flatMap_nil, List.append_nil]
  refine ⟨((eng.addPhysicalGroup 3
      ((adjacentGroups bnd db gs).map ExtrGroup.vol)).2.setPhysicalName 3
      (eng.addPhysicalGroup 3
        ((adjacentGroups bnd db gs).map ExtrGroup.vol)).1
      ("dot" ++ toString 0 ++ "-" ++ toString dg.layer_counter)).nextPtag,
    ((((batchOf gs).filter (fun e => e.1 = 3)).filter
      (fun v => v.2 ∉ (dv ++ [(adjacentGroups bnd db gs).map
        ExtrGroup.vol]).flatMap id)).map Prod.snd), ?_, ?_, ?_⟩
  · rw [setPhysicalName_groups]
    exact List.mem_append_right _ (List.mem_cons_self _ _)
  · intro v hv
    obtain ⟨e, he, rfl⟩ := List.mem_map.mp hv
    have hef := List.mem_of_mem_filter he
    have hP := List.of_mem_filter he
    rw [filter3_batchOf] at hef
    obtain ⟨g, hg, rfl⟩ := List.mem_map.mp hef
    refine ⟨List.mem_map_of_mem ExtrGroup.vol hg, ?_⟩
    simp only [decide_eq_true_eq] at hP
    exact hP
  · intro v hvm hnin
    obtain ⟨g, hg, rfl⟩ := List.mem_map.mp hvm
    refine List.mem_map.mpr ⟨(3, g.vol), ?_, rfl⟩
    refine List.mem_filter.mpr ⟨?_, ?_⟩
    · rw [filter3_batchOf]
      exact List.mem_map_of_mem _ hg
    · simp only [decide_eq_true_eq]
      exact hnin

theorem new_dot_layers_spec (bnd : Ent → List Ent) :
    ∀ (batches : List (List ExtrGroup)) (eng : Engine) (dg : DG)
      (dot : List (List Nat)) (dv : List (List Nat)),
      dg.vol_entities = [] →
      dg.dot_tag = [dot] → dot ≠ [] →
      dg.dot_volume = [dv] →
      (∀ gs ∈ batches, (gs.map ExtrGroup.vol).Nodup) →
      ∃ eng' dg' dot' dv',
        new_dot_layers batches bnd eng dg = .ok (eng', dg') ∧
        dg'.vol_entities = [] ∧
        dg'.dot_tag = [dot'] ∧ dot' ≠ [] ∧
        dg'.dot_volume = [dv'] ∧
        dv'.length = dv.length + batches.length := by
  intro batches
  induction batches with
  | nil =>
    intro eng dg dot dv hve hdt hne hdv hb
    exact ⟨eng, dg, dot, dv, rfl, hve, hdt, hne, hdv, rfl⟩
  | cons gs bs ih =>
    intro eng dg dot dv hve hdt hne hdv hb
    obtain ⟨db, hdb⟩ : ∃ db, dot.getLast? = some db := by
      cases h : dot.getLast? with
      | none => exact absurd (List.getLast?_eq_none_iff.mp h) hne
      | some d => exact ⟨d, rfl⟩
    obtain ⟨eng1, dg1, hok1, hve1, hdt1, hdv1, -⟩ :=
      new_layer_dot_step gs bnd eng dg dot db dv
        (hb gs (List.mem_cons_self gs bs)) hve hdt hdv hdb
    obtain ⟨eng', dg', dot', dv', hok, hve', hdt', hne', hdv', hlen⟩ :=
      ih eng1 dg1 _ _ hve1 hdt1 (by simp) hdv1
        (fun g hg => hb g (List.mem_cons_of_mem gs hg))
    refine ⟨eng', dg', dot', dv', ?_, hve', hdt', hne', hdv', ?_⟩
    · have hstep : new_dot_layers (gs :: bs) bnd eng dg
          = new_dot_layers bs bnd eng1 dg1 := by
        show (new_layer gs bnd none true none none 0 0 false eng dg >>=
          fun ed => new_dot_layers bs bnd ed.1 ed.2)
          = new_dot_layers bs bnd eng1 dg1
        rw [hok1]
        rfl
      rw [hstep]
      exact hok
    · rw [hlen]
      simp only [List.length_append, List.length_cons, List.length_nil]
      omega

/-- C6: (i) per layer and per tracked dot, the volumes appended to the
dot's column are exactly the extruded volumes whose boundary set meets the
dot's previous surface frame (the layer-(k-1) frame `db`), as selected by
the adjacency filter; (ii) in the same `new_layer` call the physical group
labelled for the layer's named region contains exactly the extruded
volumes *outside* the dot's updated column, so the two are disjoint;
(iii) a single dot declared before any layer and carried through `K`
dot-region layers ends with a volume lineage of exactly `K` more frames
than it started with (so exactly `K` frames when it starts empty). -/
theorem C6_dot_columns :
    (∀ (bnd : Ent → List Ent) (gs : List ExtrGroup) (mat : Option String)
      (p n : Int) (eng : Engine) (dg : DG) (i : Nat)
      (dot : List (List Nat)) (db : List Nat),
      (gs.map ExtrGroup.vol).Nodup →
      dg.dot_tag.get? i = some dot →
      dot.getLast? = some db →
      ∃ eng' dg', update_dot_vol_step bnd (batchOf gs) true none mat p n
          (eng, dg) i = .ok (eng', dg') ∧
        dg'.dot_volume = dg.dot_volume.set i
          (((dg.dot_volume.get? i).getD []) ++
            [(adjacentGroups bnd db gs).map ExtrGroup.vol]) ∧
        ∀ v, v ∈ (adjacentGroups bnd db gs).map ExtrGroup.vol ↔
          ∃ g ∈ gs, v = g.vol ∧
            ((db.map (fun t => ((2 : Nat), t))).any
              (fun s => s ∈ bnd (3, g.vol))) = true) ∧
    (∀ (gs : List ExtrGroup) (bnd : Ent → List Ent) (eng : Engine) (dg : DG)
      (dot : List (List Nat)) (db : List Nat) (dv : List (List Nat)),
      (gs.map ExtrGroup.vol).Nodup →
      dg.vol_entities = [] →
      dg.dot_tag = [dot] →
      dg.dot_volume = [dv] →
      dot.getLast? = some db →
      ∃ eng' dg', new_layer gs bnd none true none none 0 0 false eng dg
          = .ok (eng', dg') ∧
        dg'.dot_volume
          = [dv ++ [(adjacentGroups bnd db gs).map ExtrGroup.vol]] ∧
        ∃ pg vols, (3, pg, vols) ∈ eng'.groups ∧
          (∀ v ∈ vols, v ∈ gs.map ExtrGroup.vol ∧
            v ∉ (dv ++ [(adjacentGroups bnd db gs).map
              ExtrGroup.vol]).flatMap id) ∧
          (∀ v ∈ gs.map ExtrGroup.vol,
            v ∉ (dv ++ [(adjacentGroups bnd db gs).map
              ExtrGroup.vol]).flatMap id → v ∈ vols)) ∧
    (∀ (batches : List (List ExtrGroup)) (bnd : Ent → List Ent)
      (eng : Engine) (dg : DG) (dot : List (List Nat)) (dv : List (List Nat)),
      dg.vol_entities = [] →
      dg.dot_tag = [dot] → dot ≠ [] →
      dg.dot_volume = [dv] →
      (∀ gs ∈ batches, (gs.map ExtrGroup.vol).Nodup) →
      ∃ eng' dg' dot' dv',
        new_dot_layers batches bnd eng dg = .ok (eng', dg') ∧
        dg'.dot_tag = [dot'] ∧ dg'.dot_volume = [dv'] ∧
        dv'.length = dv.length + batches.length) := by
  refine ⟨?_, ?_, ?_⟩
  · intro bnd gs mat p n eng dg i dot db hnd hdot hlast
    refine ⟨_, _, update_dot_vol_step_spec bnd gs mat p n eng dg i dot db
      hnd hdot hlast, rfl, ?_⟩
    intro v
    constructor
    · intro hv
      obtain ⟨g, hg, rfl⟩ := List.mem_map.mp hv
      have hgm := List.mem_of_mem_filter hg
      have hgc := List.of_mem_filter hg
      exact ⟨g, hgm, rfl, by simpa using hgc⟩
    · rintro ⟨g, hg, rfl, hc⟩
      exact List.mem_map_of_mem _
        (List.mem_filter.mpr ⟨hg, by simpa using hc⟩)
  · intro gs bnd eng dg dot db dv hnd hve hdt hdv hlast
    obtain ⟨eng', dg', hok, -, -, hdv', hgrp⟩ :=
      new_layer_dot_step gs bnd eng dg dot db dv hnd hve hdt hdv hlast
    exact ⟨eng', dg', hok, hdv', hgrp⟩
  · intro batches bnd eng dg dot dv hve hdt hne hdv hb
    obtain ⟨eng', dg', dot', dv', hok, -, hdt', -, hdv', hlen⟩ :=
      new_dot_layers_spec bnd batches eng dg dot dv hve hdt hne hdv hb
    exact ⟨eng', dg', dot', dv', hok, hdt', hdv', hlen⟩

theorem C6_witness :
    ∃ eng' dg' dot' dv',
      new_dot_layers [[⟨5, 7, []⟩]] (fun e => [(2, 4)]) Engine.base
        { DG.base with
            dot_tag := [[[4]]]
            dot_volume := [[]] } = .ok (eng', dg') ∧
      dg'.dot_tag = [dot'] ∧ dg'.dot_volume = [dv'] ∧
      dv'.length = 0 + 1 := by
  have h := C6_dot_columns.2.2 [[⟨5, 7, []⟩]] (fun e => [(2, 4)])
    Engine.base
    { DG.base with
        dot_tag := [[[4]]]
        dot_volume := [[]] }
    [[4]] [] rfl rfl (by decide) rfl (by decide)
  simpa using h
